import Mathlib

/-!
Verification development for the OSVR-Installer example programs
(OpenGLCoreTextureFlyExample.cpp and its companion example).

The text-rendering subsystem (addFontQuad / addFontQuadXZ / addFontQuadYZ /
render_text), the DrawWorld floor-map scan, and the fly-navigation pose
integration of main() are embedded shallowly:

* GL float quantities are modelled as exact rationals.
* FreeType is modelled by an environment mapping a character to the glyph
  metrics that FT_Load_Char would produce, or none when loading fails.
* The OpenGL error status that glGetError would report at each checkpoint of
  render_text is an oracle: one flag per prologue checkpoint and one
  Nat-indexed flag per per-glyph checkpoint (indexed by the count of
  successfully loaded glyphs processed so far).
* Side effects (stderr messages, texture generation and binding, texture
  uploads, buffer uploads, draw calls, setting the quit flag, exit()) are
  recorded in an event trace.  Draw-call events also record the cursor and
  glyph used, so that per-glyph facts can be stated about the trace.
* GLuint arithmetic in DrawWorld is modelled as Nat arithmetic modulo 2^32.
* The quatlib quaternion calls used by main() are modelled over the reals.
-/

/-- A vertex of the font quad (`FontVertex` in the source): position
`pos[3]`, RGBA color `col[4]`, texture coordinates `tex[2]`. -/
structure FontVertex where
  px : ℚ
  py : ℚ
  pz : ℚ
  cr : ℚ
  cg : ℚ
  cb : ℚ
  ca : ℚ
  tu : ℚ
  tv : ℚ
deriving DecidableEq

/-- `addFontQuad`: append six vertices (two triangles) in the X-Y plane at
the given depth, exactly in the order emitted by the source. -/
def addFontQuad (bd : List FontVertex)
    (left right top bottom depth r g b a : ℚ) : List FontVertex :=
  bd ++
    [ ⟨left, bottom, depth, r, g, b, a, 0, 1⟩,
      ⟨right, top, depth, r, g, b, a, 1, 0⟩,
      ⟨right, bottom, depth, r, g, b, a, 1, 1⟩,
      ⟨left, bottom, depth, r, g, b, a, 0, 1⟩,
      ⟨left, top, depth, r, g, b, a, 0, 0⟩,
      ⟨right, top, depth, r, g, b, a, 1, 0⟩ ]

/-- `addFontQuadXZ`: append six vertices in the X-Z plane at the given y. -/
def addFontQuadXZ (bd : List FontVertex)
    (left right y maxZ minZ r g b a : ℚ) : List FontVertex :=
  bd ++
    [ ⟨left, y, minZ, r, g, b, a, 0, 1⟩,
      ⟨right, y, maxZ, r, g, b, a, 1, 0⟩,
      ⟨right, y, minZ, r, g, b, a, 1, 1⟩,
      ⟨left, y, minZ, r, g, b, a, 0, 1⟩,
      ⟨left, y, maxZ, r, g, b, a, 0, 0⟩,
      ⟨right, y, maxZ, r, g, b, a, 1, 0⟩ ]

/-- `addFontQuadYZ`: append six vertices in the Y-Z plane at the given x. -/
def addFontQuadYZ (bd : List FontVertex)
    (x top bot maxZ minZ r g b a : ℚ) : List FontVertex :=
  bd ++
    [ ⟨x, bot, minZ, r, g, b, a, 0, 1⟩,
      ⟨x, top, maxZ, r, g, b, a, 1, 0⟩,
      ⟨x, bot, maxZ, r, g, b, a, 1, 1⟩,
      ⟨x, bot, minZ, r, g, b, a, 0, 1⟩,
      ⟨x, top, minZ, r, g, b, a, 0, 0⟩,
      ⟨x, top, maxZ, r, g, b, a, 1, 0⟩ ]

/-- Membership of point `P` in the (closed) triangle with corners `A B C`,
as a convex combination of the corners. -/
def inTri (A B C P : ℚ × ℚ) : Prop :=
  ∃ l1 l2 l3 : ℚ, 0 ≤ l1 ∧ 0 ≤ l2 ∧ 0 ≤ l3 ∧ l1 + l2 + l3 = 1 ∧
    l1 * A.1 + l2 * B.1 + l3 * C.1 = P.1 ∧
    l1 * A.2 + l2 * B.2 + l3 * C.2 = P.2

/-- Glyph data produced by a successful `FT_Load_Char(face, c, FT_LOAD_RENDER)`:
the slot metrics `bitmap_left`, `bitmap_top`, `bitmap.width`, `bitmap.rows`,
the 26.6 fixed-point advance, and the rasterized bitmap buffer. -/
structure Glyph where
  bitmap_left : ℤ
  bitmap_top : ℤ
  width : ℕ
  rows : ℕ
  advanceX : ℤ
  advanceY : ℤ
  bitmap : List ℕ
deriving DecidableEq

/-- The distinct stderr messages the modelled code can print. -/
inductive LogMsg where
  | noFace
  | errUseProgram
  | errActiveTexture
  | errBlend
  | errBindTexture
  | errTexParams
  | errTexImage
  | errBufferData
  | drawWorldNoGL
  | drawWorldNoBuffer
  | couldNotOpenFile
  | perrorFile
  | translating (x z : ℕ)
  | renderFalse
deriving DecidableEq

/-- Observable effects of the modelled code, in program order.  `drawCall`
additionally records the text cursor and the glyph it was issued for. -/
inductive RtEvent where
  | log (m : LogMsg)
  | genTex (n : ℕ)
  | bindTex (n : ℕ)
  | texUpload (tex : ℕ) (img : List ℕ)
  | bufData (verts : List FontVertex)
  | drawCall (cursor : ℚ × ℚ) (g : Glyph) (verts : List FontVertex)
  | ftLoad (c : Char) (ok : Bool)
  | setQuit
  | exitProg (code : ℕ)
deriving DecidableEq

/-- The OpenGL error oracle: what `glGetError` reports at each checkpoint of
`render_text`.  The per-glyph checkpoints are indexed by how many successfully
loaded glyphs have been processed before them. -/
structure GLErr where
  useProgram : Bool
  activeTexture : Bool
  blend : Bool
  bindTexture : Bool
  texParams : ℕ → Bool
  texImage : ℕ → Bool
  bufferData : ℕ → Bool

/-- The oracle reporting no OpenGL error at any checkpoint. -/
def cleanGE : GLErr :=
  ⟨false, false, false, false, fun _ => false, fun _ => false, fun _ => false⟩

/-- Global GL object state shared across `render_text` calls:
`g_font_tex` (0 meaning not yet generated), the next fresh texture name,
how many times the font texture has been generated, and `g_on_tex`. -/
structure GlobalGL where
  fontTex : ℕ
  nextTex : ℕ
  genCalls : ℕ
  onTex : ℕ
deriving DecidableEq

/-- Per-call mutable state of the glyph loop of `render_text`: the text
cursor `x`, `y` and the `vertexBufferData` vector. -/
structure LoopSt where
  x : ℚ
  y : ℚ
  buf : List FontVertex
deriving DecidableEq

/-- Result of the glyph loop: final state, events, and whether the loop ran
to completion (false when an OpenGL error checkpoint aborted the call). -/
structure LoopRes where
  st : LoopSt
  evs : List RtEvent
  ok : Bool
deriving DecidableEq

/-- Result of a `render_text` call: return value, global GL state, events. -/
structure RtResult where
  ok : Bool
  gs : GlobalGL
  evs : List RtEvent
deriving DecidableEq

/-- The vertex list built for one glyph by the `switch (plane)` statement of
`render_text`: each recognized case clears `vertexBufferData` and emits one
quad; any other plane value leaves the vector untouched. -/
def mkBuf (plane : ℤ) (z sx sy : ℚ) (st : LoopSt) (g : Glyph) :
    List FontVertex :=
  if plane = 0 then
    let x2 := st.x + (g.bitmap_left : ℚ) * sx
    let y2 := st.y + (g.bitmap_top : ℚ) * sy
    let w := (g.width : ℚ) * sx
    let h := (g.rows : ℚ) * sy
    addFontQuad [] x2 (x2 + w) y2 (y2 - h) z 1 1 1 0
  else if plane = 1 then
    let x2 := st.x + (g.bitmap_left : ℚ) * sx
    let z2 := z + (g.bitmap_top : ℚ) * sy
    let w := (g.width : ℚ) * sx
    let h := (g.rows : ℚ) * sy
    addFontQuadXZ [] x2 (x2 + w) st.y (z2 - h) z2 1 1 1 0
  else if plane = 2 then
    let z2 := z + (g.bitmap_left : ℚ) * sx
    let y2 := st.y + (g.bitmap_top : ℚ) * sy
    let w := (g.width : ℚ) * sx
    let h := (g.rows : ℚ) * sy
    addFontQuadYZ [] st.x y2 (y2 - h) z2 (z2 + w) 1 1 1 0
  else st.buf

/-- The body of one iteration of the glyph loop for a successfully loaded
glyph `g`: texture-parameter checkpoint, texture upload and checkpoint,
quad construction, buffer upload and checkpoint, draw call, cursor advance
by `(advance / 64) * spacing` (C integer division). -/
def glyphStep (ge : GLErr) (ftx : ℕ) (plane : ℤ) (z sx sy : ℚ)
    (i : ℕ) (g : Glyph) (st : LoopSt) : LoopRes :=
  if ge.texParams i then ⟨st, [RtEvent.log LogMsg.errTexParams], false⟩
  else
    let up := RtEvent.texUpload ftx g.bitmap
    if ge.texImage i then ⟨st, [up, RtEvent.log LogMsg.errTexImage], false⟩
    else
      let buf2 := mkBuf plane z sx sy st g
      if ge.bufferData i then
        ⟨⟨st.x, st.y, buf2⟩,
         [up, RtEvent.bufData buf2, RtEvent.log LogMsg.errBufferData], false⟩
      else
        ⟨⟨st.x + ((Int.tdiv g.advanceX 64 : ℤ) : ℚ) * sx,
          st.y + ((Int.tdiv g.advanceY 64 : ℤ) : ℚ) * sy, buf2⟩,
         [up, RtEvent.bufData buf2,
          RtEvent.drawCall (st.x, st.y) g buf2], true⟩

/-- The glyph loop of `render_text`: iterate over the C string until the
first NUL byte, skipping characters whose glyph fails to load
(`FT_Load_Char` nonzero means `continue`), running `glyphStep` otherwise,
and aborting the whole call when a checkpoint reports an error. -/
def rtLoop (ft : Char → Option Glyph) (ge : GLErr) (ftx : ℕ) (plane : ℤ)
    (z sx sy : ℚ) : List Char → ℕ → LoopSt → LoopRes
  | [], _, st => ⟨st, [], true⟩
  | c :: rest, i, st =>
    if c = Char.ofNat 0 then ⟨st, [], true⟩
    else
      match ft c with
      | none =>
        let r := rtLoop ft ge ftx plane z sx sy rest i st
        ⟨r.st, RtEvent.ftLoad c false :: r.evs, r.ok⟩
      | some g =>
        let s := glyphStep ge ftx plane z sx sy i g st
        if s.ok then
          let r := rtLoop ft ge ftx plane z sx sy rest (i + 1) s.st
          ⟨r.st, RtEvent.ftLoad c true :: (s.evs ++ r.evs), r.ok⟩
        else ⟨s.st, RtEvent.ftLoad c true :: s.evs, false⟩

/-- `render_text` of the fly example: fail when no face is loaded, check the
prologue checkpoints (use program, texture-unit activation, blend enable),
generate the font texture on first need, bind it (with checkpoint), run the
glyph loop, and on completion rebind `g_on_tex` and return true. -/
def render_text (face : Option (Char → Option Glyph)) (ge : GLErr)
    (gs : GlobalGL) (text : List Char) (x y z sx sy : ℚ) (plane : ℤ) :
    RtResult :=
  match face with
  | none => ⟨false, gs, [RtEvent.log LogMsg.noFace]⟩
  | some ft =>
    if ge.useProgram then ⟨false, gs, [RtEvent.log LogMsg.errUseProgram]⟩
    else if ge.activeTexture then
      ⟨false, gs, [RtEvent.log LogMsg.errActiveTexture]⟩
    else if ge.blend then ⟨false, gs, [RtEvent.log LogMsg.errBlend]⟩
    else
      let gs2 : GlobalGL :=
        if gs.fontTex = 0 then
          ⟨gs.nextTex, gs.nextTex + 1, gs.genCalls + 1, gs.onTex⟩
        else gs
      let genEvs : List RtEvent :=
        if gs.fontTex = 0 then [RtEvent.genTex gs.nextTex] else []
      if ge.bindTexture then
        ⟨false, gs2,
         genEvs ++ [RtEvent.bindTex gs2.fontTex,
                    RtEvent.log LogMsg.errBindTexture]⟩
      else
        let r := rtLoop ft ge gs2.fontTex plane z sx sy text 0 ⟨x, y, []⟩
        if r.ok then
          ⟨true, gs2,
           genEvs ++ RtEvent.bindTex gs2.fontTex ::
             (r.evs ++ [RtEvent.bindTex gs2.onTex])⟩
        else ⟨false, gs2, genEvs ++ RtEvent.bindTex gs2.fontTex :: r.evs⟩

/-- The characters of a C string before its first NUL byte. -/
def preNul : List Char → List Char
  | [] => []
  | c :: rest => if c = Char.ofNat 0 then [] else c :: preNul rest

/-- The glyphs that load successfully, in order, over the pre-NUL text. -/
def loadedGlyphs (ft : Char → Option Glyph) (text : List Char) : List Glyph :=
  (preNul text).filterMap ft

/-- Number of successfully loading glyphs under an optional face. -/
def loadedCountFace (face : Option (Char → Option Glyph))
    (text : List Char) : ℕ :=
  match face with
  | none => 0
  | some ft => (loadedGlyphs ft text).length

/-- The cursor advance of one glyph as the spec states it:
`x += (advance.x / 64) * sx` and `y += (advance.y / 64) * sy`, with C
truncating integer division. -/
def stepQ (sx sy : ℚ) (p : ℚ × ℚ) (g : Glyph) : ℚ × ℚ :=
  (p.1 + ((Int.tdiv g.advanceX 64 : ℤ) : ℚ) * sx,
   p.2 + ((Int.tdiv g.advanceY 64 : ℤ) : ℚ) * sy)

/-- A draw call extracted from the trace: cursor, glyph and vertices. -/
structure DrawRec where
  cursor : ℚ × ℚ
  glyph : Glyph
  verts : List FontVertex
deriving DecidableEq

/-- The draw calls of a trace, in order. -/
def drawRecs (evs : List RtEvent) : List DrawRec :=
  evs.filterMap fun e =>
    match e with
    | RtEvent.drawCall c g v => some ⟨c, g, v⟩
    | _ => none

/-- The texture uploads of a trace: target texture name and image. -/
def uploadsOf (evs : List RtEvent) : List (ℕ × List ℕ) :=
  evs.filterMap fun e =>
    match e with
    | RtEvent.texUpload t img => some (t, img)
    | _ => none

/-- How many texture names a trace generates. -/
def genCount (evs : List RtEvent) : ℕ :=
  (evs.filter fun e =>
    match e with
    | RtEvent.genTex _ => true
    | _ => false).length

/-- The vertex lists passed to `glBufferData`, in order. -/
def bufLists (evs : List RtEvent) : List (List FontVertex) :=
  evs.filterMap fun e =>
    match e with
    | RtEvent.bufData v => some v
    | _ => none

/-- The characters the glyph loop attempted to load, with the outcome. -/
def visitsOf (evs : List RtEvent) : List (Char × Bool) :=
  evs.filterMap fun e =>
    match e with
    | RtEvent.ftLoad c ok => some (c, ok)
    | _ => none

/-- Arguments of one `render_text` call. -/
structure CallArgs where
  face : Option (Char → Option Glyph)
  ge : GLErr
  text : List Char
  x : ℚ
  y : ℚ
  z : ℚ
  sx : ℚ
  sy : ℚ
  plane : ℤ

/-- A sequence of `render_text` calls threading the global GL state, with
the concatenated event trace. -/
def renderCalls : GlobalGL → List CallArgs → GlobalGL × List RtEvent
  | gs, [] => (gs, [])
  | gs, a :: rest =>
    let r := render_text a.face a.ge gs a.text a.x a.y a.z a.sx a.sy a.plane
    let r2 := renderCalls r.gs rest
    (r2.1, r.evs ++ r2.2)

/-- 2^32, the modulus of GLuint arithmetic. -/
def M32 : ℕ := 2 ^ 32

/-- The '@'-locating scan of DrawWorld, on GLuint `playerX`/`playerZ`:
newline does `playerX -= 4; playerZ = 0`, any other character does
`playerZ += 4`, and '@' stops the scan. -/
def scanAux : List Char → ℕ → ℕ → ℕ × ℕ
  | [], px, pz => (px, pz)
  | c :: cs, px, pz =>
    if c = '@' then (px, pz)
    else if c = '\n' then scanAux cs ((px + (M32 - 4)) % M32) 0
    else scanAux cs px ((pz + 4) % M32)

/-- The scan started from `playerX = playerZ = 0`. -/
def scanPlayer (l : List Char) : ℕ × ℕ := scanAux l 0 0

/-- Number of newline characters in a list. -/
def nlCount : List Char → ℕ
  | [] => 0
  | c :: cs => (if c = '\n' then 1 else 0) + nlCount cs

/-- Number of characters after the last newline of the list (the whole
length when it has no newline). -/
def sinceNewline : List Char → ℕ
  | [] => 0
  | c :: cs =>
    if c = '\n' then sinceNewline cs
    else if '\n' ∈ cs then sinceNewline cs
    else cs.length + 1

/-- A quaternion in quatlib component order x, y, z, w. -/
structure QuatR where
  x : ℝ
  y : ℝ
  z : ℝ
  w : ℝ

/-- quatlib `q_mult`: the Hamilton product (left times right). -/
noncomputable def q_mult (q r : QuatR) : QuatR :=
  ⟨q.w * r.x + q.x * r.w + q.y * r.z - q.z * r.y,
   q.w * r.y + q.y * r.w + q.z * r.x - q.x * r.z,
   q.w * r.z + q.z * r.w + q.x * r.y - q.y * r.x,
   q.w * r.w - q.x * r.x - q.y * r.y - q.z * r.z⟩

/-- Quaternion conjugate. -/
noncomputable def q_conjugate (q : QuatR) : QuatR := ⟨-q.x, -q.y, -q.z, q.w⟩

/-- quatlib `q_xform`: rotate a vector by a (unit) quaternion,
`q * (v, 0) * conj q`. -/
noncomputable def q_xform (q : QuatR) (v : ℝ × ℝ × ℝ) : ℝ × ℝ × ℝ :=
  let p : QuatR := ⟨v.1, v.2.1, v.2.2, 0⟩
  let r := q_mult (q_mult q p) (q_conjugate q)
  (r.x, r.y, r.z)

/-- quatlib `q_from_axis_angle`: normalize the axis (identity quaternion for
a zero axis) and build `(axis * sin(angle/2), cos(angle/2))`. -/
noncomputable def q_from_axis_angle (ax ay az angle : ℝ) : QuatR :=
  let len := Real.sqrt (ax * ax + ay * ay + az * az)
  if len = 0 then ⟨0, 0, 0, 1⟩
  else
    ⟨ax / len * Real.sin (angle / 2),
     ay / len * Real.sin (angle / 2),
     az / len * Real.sin (angle / 2),
     Real.cos (angle / 2)⟩

/-- The accumulated room-to-world pose: rotation quaternion and translation. -/
structure Pose3 where
  quat : QuatR
  tx : ℝ
  ty : ℝ
  tz : ℝ

/-- Componentwise vector sum. -/
def vadd (u v : ℝ × ℝ × ℝ) : ℝ × ℝ × ℝ :=
  (u.1 + v.1, u.2.1 + v.2.1, u.2.2 + v.2.2)

/-- Scalar times vector, componentwise. -/
def vscale (s : ℝ) (v : ℝ × ℝ × ℝ) : ℝ × ℝ × ℝ :=
  (s * v.1, s * v.2.1, s * v.2.2)

/-- One iteration of the flying section of the fly example's main loop:
speeds scaled by the frame time, the room-to-world quaternion spun about the
vertical axis, the forward and right directions obtained by rotating head
-Z and +X through the head pose and the updated room-to-world rotation, and
the translation updated only when `dt < 0.5`.  When the head pose read
failed, nothing is updated. -/
noncomputable def flyStep (dt trigger leftStickX leftStickY rightStickX : ℝ)
    (headOk : Bool) (headQuat : QuatR) (pose : Pose3) : Pose3 :=
  let right := dt * leftStickX * 3
  let forward := dt * leftStickY * (-3)
  let up := dt * trigger * (-2)
  let spin := dt * rightStickX * (-(Real.pi / 2))
  if headOk then
    let rot := q_from_axis_angle 0 1 0 spin
    let newQuat := q_mult rot pose.quat
    let fwdDir := vscale forward (q_xform newQuat (q_xform headQuat (0, 0, -1)))
    let rightDir := vscale right (q_xform newQuat (q_xform headQuat (1, 0, 0)))
    let deltaX := fwdDir.1 + rightDir.1
    let deltaY := up + fwdDir.2.1 + rightDir.2.1
    let deltaZ := fwdDir.2.2 + rightDir.2.2
    if dt < 1 / 2 then
      ⟨newQuat, pose.tx + deltaX, pose.ty + deltaY, pose.tz + deltaZ⟩
    else ⟨newQuat, pose.tx, pose.ty, pose.tz⟩
  else pose

/-- Any point of the axis-aligned rectangle `[a,b] × [c,d]` lies in one of
the two triangles into which the diagonal from `(a,c)` to `(b,d)` splits it. -/
theorem rect_cover (a b c d p q : ℚ) (hab : a < b) (hcd : c < d)
    (hp1 : a ≤ p) (hp2 : p ≤ b) (hq1 : c ≤ q) (hq2 : q ≤ d) :
    inTri (a, c) (b, d) (b, c) (p, q) ∨ inTri (a, c) (a, d) (b, d) (p, q) := by
  have hba : (0 : ℚ) < b - a := by linarith
  have hdc : (0 : ℚ) < d - c := by linarith
  by_cases h : (q - c) * (b - a) ≤ (p - a) * (d - c)
  · left
    refine ⟨(b - p) / (b - a), (q - c) / (d - c),
      1 - (b - p) / (b - a) - (q - c) / (d - c), ?_, ?_, ?_, by ring, ?_, ?_⟩
    · exact div_nonneg (by linarith) (le_of_lt hba)
    · exact div_nonneg (by linarith) (le_of_lt hdc)
    · have h1 : (b - p) / (b - a) + (q - c) / (d - c) ≤ 1 := by
        rw [div_add_div _ _ (ne_of_gt hba) (ne_of_gt hdc),
          div_le_one (by positivity)]
        nlinarith
      linarith
    · field_simp
      ring
    · field_simp
      ring
  · right
    refine ⟨(d - q) / (d - c),
      1 - (d - q) / (d - c) - (p - a) / (b - a), (p - a) / (b - a),
      ?_, ?_, ?_, by ring, ?_, ?_⟩
    · exact div_nonneg (by linarith) (le_of_lt hdc)
    · have h1 : (d - q) / (d - c) + (p - a) / (b - a) ≤ 1 := by
        rw [div_add_div _ _ (ne_of_gt hdc) (ne_of_gt hba),
          div_le_one (by positivity)]
        nlinarith
      linarith
    · exact div_nonneg (by linarith) (le_of_lt hba)
    · field_simp
      ring
    · field_simp
      ring

/-- C2: each call to addFontQuad (and its XZ and YZ variants) appends exactly
six vertices forming two triangles that together cover the axis-aligned
rectangle spanned by the given left/right and top/bottom (or min/max)
extents, with all six vertices carrying the same RGBA color and with texture
coordinates covering the unit square with the vertical texture coordinate
inverted (texture v is 0 on the top/max side and 1 on the bottom/min side). -/
theorem addFontQuad_two_triangles
    (bd1 bd2 bd3 : List FontVertex)
    (lq rq tq bq depth yq xq zMax zMin cR cG cB cA : ℚ)
    (hlr : lq < rq) (hbt : bq < tq) (hzz : zMin < zMax) :
    ((addFontQuad bd1 lq rq tq bq depth cR cG cB cA).length = bd1.length + 6 ∧
     (addFontQuad bd1 lq rq tq bq depth cR cG cB cA).take bd1.length = bd1 ∧
     (∀ v ∈ (addFontQuad bd1 lq rq tq bq depth cR cG cB cA).drop bd1.length,
        v.cr = cR ∧ v.cg = cG ∧ v.cb = cB ∧ v.ca = cA) ∧
     ((addFontQuad bd1 lq rq tq bq depth cR cG cB cA).drop bd1.length).map
        (fun v => (v.px, v.py, v.pz)) =
       [(lq, bq, depth), (rq, tq, depth), (rq, bq, depth),
        (lq, bq, depth), (lq, tq, depth), (rq, tq, depth)] ∧
     ((addFontQuad bd1 lq rq tq bq depth cR cG cB cA).drop bd1.length).map
        (fun v => (v.tu, v.tv)) =
       [(0, 1), (1, 0), (1, 1), (0, 1), (0, 0), (1, 0)] ∧
     (∀ p q : ℚ, lq ≤ p → p ≤ rq → bq ≤ q → q ≤ tq →
        inTri (lq, bq) (rq, tq) (rq, bq) (p, q) ∨
        inTri (lq, bq) (lq, tq) (rq, tq) (p, q))) ∧
    ((addFontQuadXZ bd2 lq rq yq zMax zMin cR cG cB cA).length =
        bd2.length + 6 ∧
     (addFontQuadXZ bd2 lq rq yq zMax zMin cR cG cB cA).take bd2.length =
        bd2 ∧
     (∀ v ∈ (addFontQuadXZ bd2 lq rq yq zMax zMin cR cG cB cA).drop
        bd2.length, v.cr = cR ∧ v.cg = cG ∧ v.cb = cB ∧ v.ca = cA) ∧
     ((addFontQuadXZ bd2 lq rq yq zMax zMin cR cG cB cA).drop bd2.length).map
        (fun v => (v.px, v.py, v.pz)) =
       [(lq, yq, zMin), (rq, yq, zMax), (rq, yq, zMin),
        (lq, yq, zMin), (lq, yq, zMax), (rq, yq, zMax)] ∧
     ((addFontQuadXZ bd2 lq rq yq zMax zMin cR cG cB cA).drop bd2.length).map
        (fun v => (v.tu, v.tv)) =
       [(0, 1), (1, 0), (1, 1), (0, 1), (0, 0), (1, 0)] ∧
     (∀ p w : ℚ, lq ≤ p → p ≤ rq → zMin ≤ w → w ≤ zMax →
        inTri (lq, zMin) (rq, zMax) (rq, zMin) (p, w) ∨
        inTri (lq, zMin) (lq, zMax) (rq, zMax) (p, w))) ∧
    ((addFontQuadYZ bd3 xq tq bq zMax zMin cR cG cB cA).length =
        bd3.length + 6 ∧
     (addFontQuadYZ bd3 xq tq bq zMax zMin cR cG cB cA).take bd3.length =
        bd3 ∧
     (∀ v ∈ (addFontQuadYZ bd3 xq tq bq zMax zMin cR cG cB cA).drop
        bd3.length, v.cr = cR ∧ v.cg = cG ∧ v.cb = cB ∧ v.ca = cA) ∧
     ((addFontQuadYZ bd3 xq tq bq zMax zMin cR cG cB cA).drop bd3.length).map
        (fun v => (v.px, v.py, v.pz)) =
       [(xq, bq, zMin), (xq, tq, zMax), (xq, bq, zMax),
        (xq, bq, zMin), (xq, tq, zMin), (xq, tq, zMax)] ∧
     ((addFontQuadYZ bd3 xq tq bq zMax zMin cR cG cB cA).drop bd3.length).map
        (fun v => (v.tu, v.tv)) =
       [(0, 1), (1, 0), (1, 1), (0, 1), (0, 0), (1, 0)] ∧
     (∀ w q : ℚ, zMin ≤ w → w ≤ zMax → bq ≤ q → q ≤ tq →
        inTri (zMin, bq) (zMax, tq) (zMax, bq) (w, q) ∨
        inTri (zMin, bq) (zMin, tq) (zMax, tq) (w, q))) := by
  refine ⟨⟨?_, ?_, ?_, ?_, ?_, ?_⟩, ⟨?_, ?_, ?_, ?_, ?_, ?_⟩,
    ⟨?_, ?_, ?_, ?_, ?_, ?_⟩⟩
  · simp [addFontQuad]
  · simp [addFontQuad, List.take_left]
  · simp only [addFontQuad, List.drop_left]
    intro v hv
    simp only [List.mem_cons, List.not_mem_nil, or_false] at hv
    rcases hv with rfl | rfl | rfl | rfl | rfl | rfl <;>
      exact ⟨rfl, rfl, rfl, rfl⟩
  · simp [addFontQuad, List.drop_left]
  · simp [addFontQuad, List.drop_left]
  · intro p q h1 h2 h3 h4
    exact rect_cover lq rq bq tq p q hlr hbt h1 h2 h3 h4
  · simp [addFontQuadXZ]
  · simp [addFontQuadXZ, List.take_left]
  · simp only [addFontQuadXZ, List.drop_left]
    intro v hv
    simp only [List.mem_cons, List.not_mem_nil, or_false] at hv
    rcases hv with rfl | rfl | rfl | rfl | rfl | rfl <;>
      exact ⟨rfl, rfl, rfl, rfl⟩
  · simp [addFontQuadXZ, List.drop_left]
  · simp [addFontQuadXZ, List.drop_left]
  · intro p w h1 h2 h3 h4
    exact rect_cover lq rq zMin zMax p w hlr hzz h1 h2 h3 h4
  · simp [addFontQuadYZ]
  · simp [addFontQuadYZ, List.take_left]
  · simp only [addFontQuadYZ, List.drop_left]
    intro v hv
    simp only [List.mem_cons, List.not_mem_nil, or_false] at hv
    rcases hv with rfl | rfl | rfl | rfl | rfl | rfl <;>
      exact ⟨rfl, rfl, rfl, rfl⟩
  · simp [addFontQuadYZ, List.drop_left]
  · simp [addFontQuadYZ, List.drop_left]
  · intro w q h1 h2 h3 h4
    exact rect_cover zMin zMax bq tq w q hzz hbt h1 h2 h3 h4

/-- Witness for C2: the quad properties instantiated at concrete extents.  -/
theorem addFontQuad_two_triangles_witness :
    ((0 : ℚ) < 1 ∧ (0 : ℚ) < 1 ∧ (0 : ℚ) < 1) ∧
    (
    ((addFontQuad ([] : List FontVertex) 0 1 1 0 0 1 1 1 0).length = ([] : List FontVertex).length + 6 ∧
     (addFontQuad ([] : List FontVertex) 0 1 1 0 0 1 1 1 0).take ([] : List FontVertex).length = ([] : List FontVertex) ∧
     (∀ v ∈ (addFontQuad ([] : List FontVertex) 0 1 1 0 0 1 1 1 0).drop ([] : List FontVertex).length,
        v.cr = 1 ∧ v.cg = 1 ∧ v.cb = 1 ∧ v.ca = 0) ∧
     ((addFontQuad ([] : List FontVertex) 0 1 1 0 0 1 1 1 0).drop ([] : List FontVertex).length).map
        (fun v => (v.px, v.py, v.pz)) =
       [(0, 0, 0), (1, 1, 0), (1, 0, 0),
        (0, 0, 0), (0, 1, 0), (1, 1, 0)] ∧
     ((addFontQuad ([] : List FontVertex) 0 1 1 0 0 1 1 1 0).drop ([] : List FontVertex).length).map
        (fun v => (v.tu, v.tv)) =
       [(0, 1), (1, 0), (1, 1), (0, 1), (0, 0), (1, 0)] ∧
     (∀ p q : ℚ, 0 ≤ p → p ≤ 1 → 0 ≤ q → q ≤ 1 →
        inTri (0, 0) (1, 1) (1, 0) (p, q) ∨
        inTri (0, 0) (0, 1) (1, 1) (p, q))) ∧
    ((addFontQuadXZ ([] : List FontVertex) 0 1 0 1 0 1 1 1 0).length =
        ([] : List FontVertex).length + 6 ∧
     (addFontQuadXZ ([] : List FontVertex) 0 1 0 1 0 1 1 1 0).take ([] : List FontVertex).length =
        ([] : List FontVertex) ∧
     (∀ v ∈ (addFontQuadXZ ([] : List FontVertex) 0 1 0 1 0 1 1 1 0).drop
        ([] : List FontVertex).length, v.cr = 1 ∧ v.cg = 1 ∧ v.cb = 1 ∧ v.ca = 0) ∧
     ((addFontQuadXZ ([] : List FontVertex) 0 1 0 1 0 1 1 1 0).drop ([] : List FontVertex).length).map
        (fun v => (v.px, v.py, v.pz)) =
       [(0, 0, 0), (1, 0, 1), (1, 0, 0),
        (0, 0, 0), (0, 0, 1), (1, 0, 1)] ∧
     ((addFontQuadXZ ([] : List FontVertex) 0 1 0 1 0 1 1 1 0).drop ([] : List FontVertex).length).map
        (fun v => (v.tu, v.tv)) =
       [(0, 1), (1, 0), (1, 1), (0, 1), (0, 0), (1, 0)] ∧
     (∀ p w : ℚ, 0 ≤ p → p ≤ 1 → 0 ≤ w → w ≤ 1 →
        inTri (0, 0) (1, 1) (1, 0) (p, w) ∨
        inTri (0, 0) (0, 1) (1, 1) (p, w))) ∧
    ((addFontQuadYZ ([] : List FontVertex) 0 1 0 1 0 1 1 1 0).length =
        ([] : List FontVertex).length + 6 ∧
     (addFontQuadYZ ([] : List FontVertex) 0 1 0 1 0 1 1 1 0).take ([] : List FontVertex).length =
        ([] : List FontVertex) ∧
     (∀ v ∈ (addFontQuadYZ ([] : List FontVertex) 0 1 0 1 0 1 1 1 0).drop
        ([] : List FontVertex).length, v.cr = 1 ∧ v.cg = 1 ∧ v.cb = 1 ∧ v.ca = 0) ∧
     ((addFontQuadYZ ([] : List FontVertex) 0 1 0 1 0 1 1 1 0).drop ([] : List FontVertex).length).map
        (fun v => (v.px, v.py, v.pz)) =
       [(0, 0, 0), (0, 1, 1), (0, 0, 1),
        (0, 0, 0), (0, 1, 0), (0, 1, 1)] ∧
     ((addFontQuadYZ ([] : List FontVertex) 0 1 0 1 0 1 1 1 0).drop ([] : List FontVertex).length).map
        (fun v => (v.tu, v.tv)) =
       [(0, 1), (1, 0), (1, 1), (0, 1), (0, 0), (1, 0)] ∧
     (∀ w q : ℚ, 0 ≤ w → w ≤ 1 → 0 ≤ q → q ≤ 1 →
        inTri (0, 0) (1, 1) (1, 0) (w, q) ∨
        inTri (0, 0) (0, 1) (1, 1) (w, q)))
    ) :=
  ⟨⟨by norm_num, by norm_num, by norm_num⟩,
   addFontQuad_two_triangles [] [] [] 0 1 1 0 0 0 0 1 0 1 1 1 0
     (by norm_num) (by norm_num) (by norm_num)⟩

/-- The glyph loop does nothing on an empty string. -/
theorem rtLoop_nil (ft : Char → Option Glyph) (ge : GLErr) (ftx : ℕ)
    (plane : ℤ) (z sx sy : ℚ) (i : ℕ) (st : LoopSt) :
    rtLoop ft ge ftx plane z sx sy [] i st = ⟨st, [], true⟩ := rfl

/-- The glyph loop stops at a NUL character. -/
theorem rtLoop_cons_nul (ft : Char → Option Glyph) (ge : GLErr) (ftx : ℕ)
    (plane : ℤ) (z sx sy : ℚ) (c : Char) (rest : List Char) (i : ℕ)
    (st : LoopSt) (h : c = Char.ofNat 0) :
    rtLoop ft ge ftx plane z sx sy (c :: rest) i st = ⟨st, [], true⟩ := by
  simp [rtLoop, h]

/-- A character whose glyph fails to load is skipped. -/
theorem rtLoop_cons_skip (ft : Char → Option Glyph) (ge : GLErr) (ftx : ℕ)
    (plane : ℤ) (z sx sy : ℚ) (c : Char) (rest : List Char) (i : ℕ)
    (st : LoopSt) (hc : ¬ c = Char.ofNat 0) (hft : ft c = none) :
    rtLoop ft ge ftx plane z sx sy (c :: rest) i st =
      ⟨(rtLoop ft ge ftx plane z sx sy rest i st).st,
       RtEvent.ftLoad c false ::
         (rtLoop ft ge ftx plane z sx sy rest i st).evs,
       (rtLoop ft ge ftx plane z sx sy rest i st).ok⟩ := by
  simp [rtLoop, hc, hft]

/-- A successfully loading character runs `glyphStep` and continues (or
aborts the call when the step hit an error checkpoint). -/
theorem rtLoop_cons_glyph (ft : Char → Option Glyph) (ge : GLErr) (ftx : ℕ)
    (plane : ℤ) (z sx sy : ℚ) (c : Char) (rest : List Char) (i : ℕ)
    (st : LoopSt) (g : Glyph) (hc : ¬ c = Char.ofNat 0)
    (hft : ft c = some g) :
    rtLoop ft ge ftx plane z sx sy (c :: rest) i st =
      (if (glyphStep ge ftx plane z sx sy i g st).ok then
        ⟨(rtLoop ft ge ftx plane z sx sy rest (i + 1)
            (glyphStep ge ftx plane z sx sy i g st).st).st,
         RtEvent.ftLoad c true ::
           ((glyphStep ge ftx plane z sx sy i g st).evs ++
            (rtLoop ft ge ftx plane z sx sy rest (i + 1)
              (glyphStep ge ftx plane z sx sy i g st).st).evs),
         (rtLoop ft ge ftx plane z sx sy rest (i + 1)
            (glyphStep ge ftx plane z sx sy i g st).st).ok⟩
      else ⟨(glyphStep ge ftx plane z sx sy i g st).st,
            RtEvent.ftLoad c true ::
              (glyphStep ge ftx plane z sx sy i g st).evs,
            false⟩) := by
  simp only [rtLoop, hc, if_false, hft]

/-- `glyphStep` when the texture-parameter checkpoint reports an error. -/
theorem glyphStep_tp (ge : GLErr) (ftx : ℕ) (plane : ℤ) (z sx sy : ℚ)
    (i : ℕ) (g : Glyph) (st : LoopSt) (h : ge.texParams i = true) :
    glyphStep ge ftx plane z sx sy i g st =
      ⟨st, [RtEvent.log LogMsg.errTexParams], false⟩ := by
  simp [glyphStep, h]

/-- `glyphStep` when the texture-upload checkpoint reports an error. -/
theorem glyphStep_ti (ge : GLErr) (ftx : ℕ) (plane : ℤ) (z sx sy : ℚ)
    (i : ℕ) (g : Glyph) (st : LoopSt) (h1 : ge.texParams i = false)
    (h : ge.texImage i = true) :
    glyphStep ge ftx plane z sx sy i g st =
      ⟨st, [RtEvent.texUpload ftx g.bitmap, RtEvent.log LogMsg.errTexImage],
       false⟩ := by
  simp [glyphStep, h1, h]

/-- `glyphStep` when the buffer-upload checkpoint reports an error. -/
theorem glyphStep_bd (ge : GLErr) (ftx : ℕ) (plane : ℤ) (z sx sy : ℚ)
    (i : ℕ) (g : Glyph) (st : LoopSt) (h1 : ge.texParams i = false)
    (h2 : ge.texImage i = false) (h : ge.bufferData i = true) :
    glyphStep ge ftx plane z sx sy i g st =
      ⟨⟨st.x, st.y, mkBuf plane z sx sy st g⟩,
       [RtEvent.texUpload ftx g.bitmap,
        RtEvent.bufData (mkBuf plane z sx sy st g),
        RtEvent.log LogMsg.errBufferData], false⟩ := by
  simp [glyphStep, h1, h2, h]

/-- `glyphStep` when no checkpoint reports an error: upload, buffer, draw,
advance. -/
theorem glyphStep_clean (ge : GLErr) (ftx : ℕ) (plane : ℤ) (z sx sy : ℚ)
    (i : ℕ) (g : Glyph) (st : LoopSt) (h1 : ge.texParams i = false)
    (h2 : ge.texImage i = false) (h3 : ge.bufferData i = false) :
    glyphStep ge ftx plane z sx sy i g st =
      ⟨⟨st.x + ((Int.tdiv g.advanceX 64 : ℤ) : ℚ) * sx,
        st.y + ((Int.tdiv g.advanceY 64 : ℤ) : ℚ) * sy,
        mkBuf plane z sx sy st g⟩,
       [RtEvent.texUpload ftx g.bitmap,
        RtEvent.bufData (mkBuf plane z sx sy st g),
        RtEvent.drawCall (st.x, st.y) g (mkBuf plane z sx sy st g)],
       true⟩ := by
  simp [glyphStep, h1, h2, h3]

/-- For a recognized plane the per-glyph buffer has exactly six vertices. -/
theorem mkBuf_length (plane : ℤ) (z sx sy : ℚ) (st : LoopSt) (g : Glyph)
    (h : plane = 0 ∨ plane = 1 ∨ plane = 2) :
    (mkBuf plane z sx sy st g).length = 6 := by
  rcases h with h | h | h <;>
    simp [mkBuf, h, addFontQuad, addFontQuadXZ, addFontQuadYZ]

/-- For an unrecognized plane no switch case runs: the buffer is untouched. -/
theorem mkBuf_invalid (plane : ℤ) (z sx sy : ℚ) (st : LoopSt) (g : Glyph)
    (h : ¬(plane = 0 ∨ plane = 1 ∨ plane = 2)) :
    mkBuf plane z sx sy st g = st.buf := by
  push_neg at h
  simp [mkBuf, h.1, h.2.1, h.2.2]

/-- With plane 0 (XY) all six vertices share the given z. -/
theorem mkBuf_plane0 (plane : ℤ) (z sx sy : ℚ) (st : LoopSt) (g : Glyph)
    (h : plane = 0) : ∀ v ∈ mkBuf plane z sx sy st g, v.pz = z := by
  intro v hv
  subst h
  simp only [mkBuf, if_pos rfl, addFontQuad, List.nil_append] at hv
  fin_cases hv <;> rfl

/-- With plane 1 (XZ) all six vertices share the cursor y. -/
theorem mkBuf_plane1 (plane : ℤ) (z sx sy : ℚ) (st : LoopSt) (g : Glyph)
    (h : plane = 1) : ∀ v ∈ mkBuf plane z sx sy st g, v.py = st.y := by
  intro v hv
  subst h
  simp only [mkBuf, one_ne_zero, if_false, if_pos rfl, addFontQuadXZ,
    List.nil_append] at hv
  fin_cases hv <;> rfl

/-- With plane 2 (YZ) all six vertices share the cursor x. -/
theorem mkBuf_plane2 (plane : ℤ) (z sx sy : ℚ) (st : LoopSt) (g : Glyph)
    (h : plane = 2) : ∀ v ∈ mkBuf plane z sx sy st g, v.px = st.x := by
  intro v hv
  subst h
  have h2 : (2 : ℤ) ≠ 0 := by decide
  have h3 : (2 : ℤ) ≠ 1 := by decide
  simp only [mkBuf, if_neg h2, if_neg h3, if_pos rfl, addFontQuadYZ,
    List.nil_append] at hv
  fin_cases hv <;> rfl

/-- Draw records distribute over trace concatenation. -/
theorem drawRecs_append (l1 l2 : List RtEvent) :
    drawRecs (l1 ++ l2) = drawRecs l1 ++ drawRecs l2 := by
  simp [drawRecs, List.filterMap_append]

/-- Uploads distribute over trace concatenation. -/
theorem uploadsOf_append (l1 l2 : List RtEvent) :
    uploadsOf (l1 ++ l2) = uploadsOf l1 ++ uploadsOf l2 := by
  simp [uploadsOf, List.filterMap_append]

/-- Buffer uploads distribute over trace concatenation. -/
theorem bufLists_append (l1 l2 : List RtEvent) :
    bufLists (l1 ++ l2) = bufLists l1 ++ bufLists l2 := by
  simp [bufLists, List.filterMap_append]

/-- Load attempts distribute over trace concatenation. -/
theorem visitsOf_append (l1 l2 : List RtEvent) :
    visitsOf (l1 ++ l2) = visitsOf l1 ++ visitsOf l2 := by
  simp [visitsOf, List.filterMap_append]

/-- Texture generations add up over trace concatenation. -/
theorem genCount_append (l1 l2 : List RtEvent) :
    genCount (l1 ++ l2) = genCount l1 + genCount l2 := by
  simp [genCount, List.filter_append]

/-- A load-attempt event contributes no draw record. -/
theorem drawRecs_cons_ftLoad (c : Char) (b : Bool) (l : List RtEvent) :
    drawRecs (RtEvent.ftLoad c b :: l) = drawRecs l := by
  simp [drawRecs]

/-- A texture upload contributes no draw record. -/
theorem drawRecs_cons_up (t : ℕ) (img : List ℕ) (l : List RtEvent) :
    drawRecs (RtEvent.texUpload t img :: l) = drawRecs l := by
  simp [drawRecs]

/-- A buffer upload contributes no draw record. -/
theorem drawRecs_cons_buf (v : List FontVertex) (l : List RtEvent) :
    drawRecs (RtEvent.bufData v :: l) = drawRecs l := by
  simp [drawRecs]

/-- A log line contributes no draw record. -/
theorem drawRecs_cons_log (m : LogMsg) (l : List RtEvent) :
    drawRecs (RtEvent.log m :: l) = drawRecs l := by
  simp [drawRecs]

/-- A draw call contributes its draw record. -/
theorem drawRecs_cons_draw (cu : ℚ × ℚ) (g : Glyph) (v : List FontVertex)
    (l : List RtEvent) :
    drawRecs (RtEvent.drawCall cu g v :: l) = ⟨cu, g, v⟩ :: drawRecs l := by
  simp [drawRecs]

/-- Cursor bookkeeping of the glyph loop: the first draw uses the incoming
cursor, each later draw uses the previous draw's cursor advanced by that
glyph's `(advance / 64) * spacing`, and the final loop cursor is the last
draw's cursor advanced likewise (the incoming cursor when nothing drew). -/
theorem rtLoop_cursor (ft : Char → Option Glyph) (ge : GLErr) (ftx : ℕ)
    (plane : ℤ) (z sx sy : ℚ) :
    ∀ (text : List Char) (i : ℕ) (st : LoopSt),
      (∀ a, (drawRecs (rtLoop ft ge ftx plane z sx sy text i st).evs).head? =
          some a → a.cursor = (st.x, st.y)) ∧
      List.Chain' (fun a b => b.cursor = stepQ sx sy a.cursor a.glyph)
        (drawRecs (rtLoop ft ge ftx plane z sx sy text i st).evs) ∧
      (drawRecs (rtLoop ft ge ftx plane z sx sy text i st).evs = [] →
        ((rtLoop ft ge ftx plane z sx sy text i st).st.x,
         (rtLoop ft ge ftx plane z sx sy text i st).st.y) = (st.x, st.y)) ∧
      (∀ a, (drawRecs (rtLoop ft ge ftx plane z sx sy text i st).evs).getLast? =
          some a →
        ((rtLoop ft ge ftx plane z sx sy text i st).st.x,
         (rtLoop ft ge ftx plane z sx sy text i st).st.y) =
          stepQ sx sy a.cursor a.glyph) := by
  intro text
  induction text with
  | nil =>
    intro i st
    rw [rtLoop_nil]
    simp [drawRecs]
  | cons c rest ih =>
    intro i st
    by_cases hc : c = Char.ofNat 0
    · rw [rtLoop_cons_nul ft ge ftx plane z sx sy c rest i st hc]
      simp [drawRecs]
    · cases hft : ft c with
      | none =>
        rw [rtLoop_cons_skip ft ge ftx plane z sx sy c rest i st hc hft]
        dsimp only
        rw [drawRecs_cons_ftLoad]
        exact ih i st
      | some g =>
        rw [rtLoop_cons_glyph ft ge ftx plane z sx sy c rest i st g hc hft]
        by_cases h1 : ge.texParams i = true
        · rw [glyphStep_tp ge ftx plane z sx sy i g st h1]
          simp [drawRecs]
        · have h1 : ge.texParams i = false := by
            revert h1; cases ge.texParams i <;> simp
          by_cases h2 : ge.texImage i = true
          · rw [glyphStep_ti ge ftx plane z sx sy i g st h1 h2]
            simp [drawRecs]
          · have h2 : ge.texImage i = false := by
              revert h2; cases ge.texImage i <;> simp
            by_cases h3 : ge.bufferData i = true
            · rw [glyphStep_bd ge ftx plane z sx sy i g st h1 h2 h3]
              simp [drawRecs]
            · have h3 : ge.bufferData i = false := by
                revert h3; cases ge.bufferData i <;> simp
              rw [glyphStep_clean ge ftx plane z sx sy i g st h1 h2 h3]
              dsimp only
              rw [if_pos rfl]
              dsimp only
              rw [drawRecs_cons_ftLoad, List.cons_append, List.cons_append,
                List.cons_append, List.nil_append, drawRecs_cons_up,
                drawRecs_cons_buf, drawRecs_cons_draw]
              obtain ⟨ih1, ih2, ih3, ih4⟩ := ih (i + 1)
                ⟨st.x + ((Int.tdiv g.advanceX 64 : ℤ) : ℚ) * sx,
                 st.y + ((Int.tdiv g.advanceY 64 : ℤ) : ℚ) * sy,
                 mkBuf plane z sx sy st g⟩
              refine ⟨?_, ?_, ?_, ?_⟩
              · intro a ha
                simp only [List.head?_cons, Option.some.injEq] at ha
                rw [← ha]
              · rw [List.chain'_cons']
                constructor
                · intro b hb
                  rw [Option.mem_def] at hb
                  rw [ih1 b hb]
                  rfl
                · exact ih2
              · intro h
                simp at h
              · intro a ha
                rcases hds : drawRecs (rtLoop ft ge ftx plane z sx sy rest
                    (i + 1)
                    ⟨st.x + ((Int.tdiv g.advanceX 64 : ℤ) : ℚ) * sx,
                     st.y + ((Int.tdiv g.advanceY 64 : ℤ) : ℚ) * sy,
                     mkBuf plane z sx sy st g⟩).evs with _ | ⟨d1, ds2⟩
                · rw [hds] at ha
                  simp only [List.getLast?_singleton, Option.some.injEq] at ha
                  rw [← ha]
                  exact ih3 hds
                · rw [hds] at ha
                  rw [List.getLast?_cons_cons] at ha
                  rw [← hds] at ha
                  exact ih4 a ha

/-- Plane bookkeeping of the glyph loop: each draw's six vertices share the
constant z (plane 0), the cursor y at that glyph (plane 1), or the cursor x
at that glyph (plane 2); and with a recognized plane each draw carries
exactly six vertices. -/
theorem rtLoop_planes (ft : Char → Option Glyph) (ge : GLErr) (ftx : ℕ)
    (plane : ℤ) (z sx sy : ℚ) :
    ∀ (text : List Char) (i : ℕ) (st : LoopSt),
      ∀ d ∈ drawRecs (rtLoop ft ge ftx plane z sx sy text i st).evs,
        (plane = 0 → ∀ v ∈ d.verts, v.pz = z) ∧
        (plane = 1 → ∀ v ∈ d.verts, v.py = d.cursor.2) ∧
        (plane = 2 → ∀ v ∈ d.verts, v.px = d.cursor.1) ∧
        ((plane = 0 ∨ plane = 1 ∨ plane = 2) → d.verts.length = 6) := by
  intro text
  induction text with
  | nil =>
    intro i st
    rw [rtLoop_nil]
    simp [drawRecs]
  | cons c rest ih =>
    intro i st
    by_cases hc : c = Char.ofNat 0
    · rw [rtLoop_cons_nul ft ge ftx plane z sx sy c rest i st hc]
      simp [drawRecs]
    · cases hft : ft c with
      | none =>
        rw [rtLoop_cons_skip ft ge ftx plane z sx sy c rest i st hc hft]
        dsimp only
        rw [drawRecs_cons_ftLoad]
        exact ih i st
      | some g =>
        rw [rtLoop_cons_glyph ft ge ftx plane z sx sy c rest i st g hc hft]
        by_cases h1 : ge.texParams i = true
        · rw [glyphStep_tp ge ftx plane z sx sy i g st h1]
          simp [drawRecs]
        · have h1 : ge.texParams i = false := by
            revert h1; cases ge.texParams i <;> simp
          by_cases h2 : ge.texImage i = true
          · rw [glyphStep_ti ge ftx plane z sx sy i g st h1 h2]
            simp [drawRecs]
          · have h2 : ge.texImage i = false := by
              revert h2; cases ge.texImage i <;> simp
            by_cases h3 : ge.bufferData i = true
            · rw [glyphStep_bd ge ftx plane z sx sy i g st h1 h2 h3]
              simp [drawRecs]
            · have h3 : ge.bufferData i = false := by
                revert h3; cases ge.bufferData i <;> simp
              rw [glyphStep_clean ge ftx plane z sx sy i g st h1 h2 h3]
              dsimp only
              rw [if_pos rfl]
              dsimp only
              rw [drawRecs_cons_ftLoad, List.cons_append, List.cons_append,
                List.cons_append, List.nil_append, drawRecs_cons_up,
                drawRecs_cons_buf, drawRecs_cons_draw]
              intro d hd
              rcases List.mem_cons.mp hd with rfl | hd2
              · refine ⟨?_, ?_, ?_, ?_⟩
                · exact fun h => mkBuf_plane0 plane z sx sy st g h
                · exact fun h => mkBuf_plane1 plane z sx sy st g h
                · exact fun h => mkBuf_plane2 plane z sx sy st g h
                · exact fun h => mkBuf_length plane z sx sy st g h
              · exact ih (i + 1) _ d hd2

/-- Only `bufData` events contribute buffer uploads (cons forms). -/
theorem bufLists_cons_ftLoad (c : Char) (b : Bool) (l : List RtEvent) :
    bufLists (RtEvent.ftLoad c b :: l) = bufLists l := by
  simp [bufLists]

/-- A texture upload contributes no buffer upload. -/
theorem bufLists_cons_up (t : ℕ) (img : List ℕ) (l : List RtEvent) :
    bufLists (RtEvent.texUpload t img :: l) = bufLists l := by
  simp [bufLists]

/-- A log line contributes no buffer upload. -/
theorem bufLists_cons_log (m : LogMsg) (l : List RtEvent) :
    bufLists (RtEvent.log m :: l) = bufLists l := by
  simp [bufLists]

/-- A draw call contributes no buffer upload. -/
theorem bufLists_cons_draw (cu : ℚ × ℚ) (g : Glyph) (v : List FontVertex)
    (l : List RtEvent) :
    bufLists (RtEvent.drawCall cu g v :: l) = bufLists l := by
  simp [bufLists]

/-- A buffer upload contributes its vertex list. -/
theorem bufLists_cons_buf (v : List FontVertex) (l : List RtEvent) :
    bufLists (RtEvent.bufData v :: l) = v :: bufLists l := by
  simp [bufLists]

/-- Buffer-upload bookkeeping of the glyph loop: with a recognized plane
every vertex list passed to the buffer upload has exactly six entries (so
its first element exists); with any other plane, starting from an empty
`vertexBufferData`, every uploaded vertex list is empty (so the access to
its first element is out of bounds). -/
theorem rtLoop_bufs (ft : Char → Option Glyph) (ge : GLErr) (ftx : ℕ)
    (plane : ℤ) (z sx sy : ℚ) :
    ∀ (text : List Char) (i : ℕ) (st : LoopSt),
      ∀ l ∈ bufLists (rtLoop ft ge ftx plane z sx sy text i st).evs,
        ((plane = 0 ∨ plane = 1 ∨ plane = 2) → l.length = 6) ∧
        (¬(plane = 0 ∨ plane = 1 ∨ plane = 2) → st.buf = [] → l = []) := by
  intro text
  induction text with
  | nil =>
    intro i st
    rw [rtLoop_nil]
    simp [bufLists]
  | cons c rest ih =>
    intro i st
    by_cases hc : c = Char.ofNat 0
    · rw [rtLoop_cons_nul ft ge ftx plane z sx sy c rest i st hc]
      simp [bufLists]
    · cases hft : ft c with
      | none =>
        rw [rtLoop_cons_skip ft ge ftx plane z sx sy c rest i st hc hft]
        dsimp only
        rw [bufLists_cons_ftLoad]
        exact ih i st
      | some g =>
        rw [rtLoop_cons_glyph ft ge ftx plane z sx sy c rest i st g hc hft]
        by_cases h1 : ge.texParams i = true
        · rw [glyphStep_tp ge ftx plane z sx sy i g st h1]
          simp [bufLists]
        · have h1 : ge.texParams i = false := by
            revert h1; cases ge.texParams i <;> simp
          by_cases h2 : ge.texImage i = true
          · rw [glyphStep_ti ge ftx plane z sx sy i g st h1 h2]
            simp [bufLists]
          · have h2 : ge.texImage i = false := by
              revert h2; cases ge.texImage i <;> simp
            by_cases h3 : ge.bufferData i = true
            · rw [glyphStep_bd ge ftx plane z sx sy i g st h1 h2 h3]
              dsimp only
              rw [if_neg (by simp)]
              dsimp only
              rw [bufLists_cons_ftLoad, bufLists_cons_up, bufLists_cons_buf,
                bufLists_cons_log]
              intro l hl
              rcases List.mem_cons.mp hl with rfl | hl2
              · refine ⟨fun h => mkBuf_length plane z sx sy st g h,
                  fun h hb => ?_⟩
                rw [mkBuf_invalid plane z sx sy st g h, hb]
              · simp [bufLists] at hl2
            · have h3 : ge.bufferData i = false := by
                revert h3; cases ge.bufferData i <;> simp
              rw [glyphStep_clean ge ftx plane z sx sy i g st h1 h2 h3]
              dsimp only
              rw [if_pos rfl]
              dsimp only
              rw [bufLists_cons_ftLoad, List.cons_append, List.cons_append,
                List.cons_append, List.nil_append, bufLists_cons_up,
                bufLists_cons_buf, bufLists_cons_draw]
              intro l hl
              rcases List.mem_cons.mp hl with rfl | hl2
              · refine ⟨fun h => mkBuf_length plane z sx sy st g h,
                  fun h hb => ?_⟩
                rw [mkBuf_invalid plane z sx sy st g h, hb]
              · have hstep := ih (i + 1)
                  ⟨st.x + ((Int.tdiv g.advanceX 64 : ℤ) : ℚ) * sx,
                   st.y + ((Int.tdiv g.advanceY 64 : ℤ) : ℚ) * sy,
                   mkBuf plane z sx sy st g⟩ l hl2
                refine ⟨hstep.1, fun h hb => ?_⟩
                exact hstep.2 h
                  (by rw [mkBuf_invalid plane z sx sy st g h, hb])

/-- A load attempt contributes no texture upload. -/
theorem uploadsOf_cons_ftLoad (c : Char) (b : Bool) (l : List RtEvent) :
    uploadsOf (RtEvent.ftLoad c b :: l) = uploadsOf l := by
  simp [uploadsOf]

/-- A texture upload contributes its target and image. -/
theorem uploadsOf_cons_up (t : ℕ) (img : List ℕ) (l : List RtEvent) :
    uploadsOf (RtEvent.texUpload t img :: l) = (t, img) :: uploadsOf l := by
  simp [uploadsOf]

/-- A buffer upload contributes no texture upload. -/
theorem uploadsOf_cons_buf (v : List FontVertex) (l : List RtEvent) :
    uploadsOf (RtEvent.bufData v :: l) = uploadsOf l := by
  simp [uploadsOf]

/-- A log line contributes no texture upload. -/
theorem uploadsOf_cons_log (m : LogMsg) (l : List RtEvent) :
    uploadsOf (RtEvent.log m :: l) = uploadsOf l := by
  simp [uploadsOf]

/-- A draw call contributes no texture upload. -/
theorem uploadsOf_cons_draw (cu : ℚ × ℚ) (g : Glyph) (v : List FontVertex)
    (l : List RtEvent) :
    uploadsOf (RtEvent.drawCall cu g v :: l) = uploadsOf l := by
  simp [uploadsOf]

/-- Event sanity of the glyph loop: it never exits the process, never sets
the quit flag, never generates a texture name, only uploads to the bound
font texture, and logs a message whenever it aborts the call. -/
theorem rtLoop_events (ft : Char → Option Glyph) (ge : GLErr) (ftx : ℕ)
    (plane : ℤ) (z sx sy : ℚ) :
    ∀ (text : List Char) (i : ℕ) (st : LoopSt),
      (∀ n, RtEvent.exitProg n ∉
        (rtLoop ft ge ftx plane z sx sy text i st).evs) ∧
      RtEvent.setQuit ∉ (rtLoop ft ge ftx plane z sx sy text i st).evs ∧
      genCount (rtLoop ft ge ftx plane z sx sy text i st).evs = 0 ∧
      (∀ pr ∈ uploadsOf (rtLoop ft ge ftx plane z sx sy text i st).evs,
        pr.1 = ftx) ∧
      ((rtLoop ft ge ftx plane z sx sy text i st).ok = false →
        ∃ m, RtEvent.log m ∈ (rtLoop ft ge ftx plane z sx sy text i st).evs) := by
  intro text
  induction text with
  | nil =>
    intro i st
    rw [rtLoop_nil]
    simp [genCount, uploadsOf]
  | cons c rest ih =>
    intro i st
    by_cases hc : c = Char.ofNat 0
    · rw [rtLoop_cons_nul ft ge ftx plane z sx sy c rest i st hc]
      simp [genCount, uploadsOf]
    · cases hft : ft c with
      | none =>
        rw [rtLoop_cons_skip ft ge ftx plane z sx sy c rest i st hc hft]
        dsimp only
        obtain ⟨ihA, ihB, ihC, ihD, ihE⟩ := ih i st
        refine ⟨?_, ?_, ?_, ?_, ?_⟩
        · intro n
          simp [List.mem_cons, ihA n]
        · simp [List.mem_cons, ihB]
        · simp [genCount, ihC, genCount.eq_1] at ihC ⊢
          exact ihC
        · intro pr hpr
          rw [uploadsOf_cons_ftLoad] at hpr
          exact ihD pr hpr
        · intro hfalse
          obtain ⟨m, hm⟩ := ihE hfalse
          exact ⟨m, by simp [List.mem_cons, hm]⟩
      | some g =>
        rw [rtLoop_cons_glyph ft ge ftx plane z sx sy c rest i st g hc hft]
        by_cases h1 : ge.texParams i = true
        · rw [glyphStep_tp ge ftx plane z sx sy i g st h1]
          dsimp only
          rw [if_neg (by simp)]
          refine ⟨by simp, by simp, by simp [genCount], by simp [uploadsOf],
            fun _ => ⟨LogMsg.errTexParams, by simp⟩⟩
        · have h1 : ge.texParams i = false := by
            revert h1; cases ge.texParams i <;> simp
          by_cases h2 : ge.texImage i = true
          · rw [glyphStep_ti ge ftx plane z sx sy i g st h1 h2]
            dsimp only
            rw [if_neg (by simp)]
            refine ⟨by simp, by simp, by simp [genCount], ?_,
              fun _ => ⟨LogMsg.errTexImage, by simp⟩⟩
            intro pr hpr
            simp [uploadsOf] at hpr
            simp [hpr]
          · have h2 : ge.texImage i = false := by
              revert h2; cases ge.texImage i <;> simp
            by_cases h3 : ge.bufferData i = true
            · rw [glyphStep_bd ge ftx plane z sx sy i g st h1 h2 h3]
              dsimp only
              rw [if_neg (by simp)]
              refine ⟨by simp, by simp, by simp [genCount], ?_,
                fun _ => ⟨LogMsg.errBufferData, by simp⟩⟩
              intro pr hpr
              simp [uploadsOf] at hpr
              simp [hpr]
            · have h3 : ge.bufferData i = false := by
                revert h3; cases ge.bufferData i <;> simp
              rw [glyphStep_clean ge ftx plane z sx sy i g st h1 h2 h3]
              dsimp only
              rw [if_pos rfl]
              dsimp only
              obtain ⟨ihA, ihB, ihC, ihD, ihE⟩ := ih (i + 1)
                ⟨st.x + ((Int.tdiv g.advanceX 64 : ℤ) : ℚ) * sx,
                 st.y + ((Int.tdiv g.advanceY 64 : ℤ) : ℚ) * sy,
                 mkBuf plane z sx sy st g⟩
              refine ⟨?_, ?_, ?_, ?_, ?_⟩
              · intro n
                simp [List.mem_cons, List.mem_append, ihA n]
              · simp [List.mem_cons, List.mem_append, ihB]
              · rw [List.cons_append, List.cons_append, List.cons_append,
                  List.nil_append]
                simp [genCount, genCount.eq_1] at ihC ⊢
                exact ihC
              · rw [List.cons_append, List.cons_append, List.cons_append,
                  List.nil_append, uploadsOf_cons_ftLoad, uploadsOf_cons_up,
                  uploadsOf_cons_buf, uploadsOf_cons_draw]
                intro pr hpr
                rcases List.mem_cons.mp hpr with rfl | hpr2
                · rfl
                · exact ihD pr hpr2
              · intro hfalse
                obtain ⟨m, hm⟩ := ihE hfalse
                exact ⟨m, by simp [List.mem_cons, List.mem_append, hm]⟩

/-- A NUL first character truncates the pre-NUL text to nothing. -/
theorem preNul_cons_nul (c : Char) (rest : List Char)
    (h : c = Char.ofNat 0) : preNul (c :: rest) = [] := by
  simp [preNul, h]

/-- A non-NUL first character is kept by the pre-NUL truncation. -/
theorem preNul_cons (c : Char) (rest : List Char)
    (h : ¬ c = Char.ofNat 0) : preNul (c :: rest) = c :: preNul rest := by
  simp [preNul, h]

/-- No glyph loads from an empty text. -/
theorem loadedGlyphs_nil (ft : Char → Option Glyph) :
    loadedGlyphs ft [] = [] := rfl

/-- No glyph loads once the NUL terminator is reached. -/
theorem loadedGlyphs_cons_nul (ft : Char → Option Glyph) (c : Char)
    (rest : List Char) (h : c = Char.ofNat 0) :
    loadedGlyphs ft (c :: rest) = [] := by
  simp [loadedGlyphs, preNul_cons_nul c rest h]

/-- A character that fails to load contributes no glyph. -/
theorem loadedGlyphs_cons_skip (ft : Char → Option Glyph) (c : Char)
    (rest : List Char) (hc : ¬ c = Char.ofNat 0) (hft : ft c = none) :
    loadedGlyphs ft (c :: rest) = loadedGlyphs ft rest := by
  simp [loadedGlyphs, preNul_cons c rest hc, List.filterMap_cons, hft]

/-- A character that loads contributes its glyph. -/
theorem loadedGlyphs_cons_glyph (ft : Char → Option Glyph) (c : Char)
    (rest : List Char) (g : Glyph) (hc : ¬ c = Char.ofNat 0)
    (hft : ft c = some g) :
    loadedGlyphs ft (c :: rest) = g :: loadedGlyphs ft rest := by
  simp [loadedGlyphs, preNul_cons c rest hc, List.filterMap_cons, hft]

/-- The glyph loop completes exactly when no per-glyph checkpoint reports an
error at any of the indices its loaded glyphs occupy. -/
theorem rtLoop_ok_iff (ft : Char → Option Glyph) (ge : GLErr) (ftx : ℕ)
    (plane : ℤ) (z sx sy : ℚ) :
    ∀ (text : List Char) (i : ℕ) (st : LoopSt),
      (rtLoop ft ge ftx plane z sx sy text i st).ok = true ↔
        ∀ j, j < (loadedGlyphs ft text).length →
          (ge.texParams (i + j) = false ∧ ge.texImage (i + j) = false ∧
           ge.bufferData (i + j) = false) := by
  intro text
  induction text with
  | nil =>
    intro i st
    rw [rtLoop_nil, loadedGlyphs_nil]
    simp
  | cons c rest ih =>
    intro i st
    by_cases hc : c = Char.ofNat 0
    · rw [rtLoop_cons_nul ft ge ftx plane z sx sy c rest i st hc,
        loadedGlyphs_cons_nul ft c rest hc]
      simp
    · cases hft : ft c with
      | none =>
        rw [rtLoop_cons_skip ft ge ftx plane z sx sy c rest i st hc hft,
          loadedGlyphs_cons_skip ft c rest hc hft]
        exact ih i st
      | some g =>
        rw [rtLoop_cons_glyph ft ge ftx plane z sx sy c rest i st g hc hft,
          loadedGlyphs_cons_glyph ft c rest g hc hft]
        by_cases h1 : ge.texParams i = true
        · rw [glyphStep_tp ge ftx plane z sx sy i g st h1]
          dsimp only
          rw [if_neg (by simp)]
          simp only [Bool.false_eq_true, false_iff]
          intro h
          have h0 := (h 0 (by simp)).1
          rw [Nat.add_zero, h1] at h0
          exact Bool.noConfusion h0
        · have h1 : ge.texParams i = false := by
            revert h1; cases ge.texParams i <;> simp
          by_cases h2 : ge.texImage i = true
          · rw [glyphStep_ti ge ftx plane z sx sy i g st h1 h2]
            dsimp only
            rw [if_neg (by simp)]
            simp only [Bool.false_eq_true, false_iff]
            intro h
            have h0 := (h 0 (by simp)).2.1
            rw [Nat.add_zero, h2] at h0
            exact Bool.noConfusion h0
          · have h2 : ge.texImage i = false := by
              revert h2; cases ge.texImage i <;> simp
            by_cases h3 : ge.bufferData i = true
            · rw [glyphStep_bd ge ftx plane z sx sy i g st h1 h2 h3]
              dsimp only
              rw [if_neg (by simp)]
              simp only [Bool.false_eq_true, false_iff]
              intro h
              have h0 := (h 0 (by simp)).2.2
              rw [Nat.add_zero, h3] at h0
              exact Bool.noConfusion h0
            · have h3 : ge.bufferData i = false := by
                revert h3; cases ge.bufferData i <;> simp
              rw [glyphStep_clean ge ftx plane z sx sy i g st h1 h2 h3]
              dsimp only
              rw [if_pos rfl]
              dsimp only
              rw [ih (i + 1)]
              constructor
              · intro hr j hj
                cases j with
                | zero =>
                  rw [Nat.add_zero]
                  exact ⟨h1, h2, h3⟩
                | succ j2 =>
                  have he : i + (j2 + 1) = i + 1 + j2 := by omega
                  rw [he]
                  exact hr j2 (by simpa using hj)
              · intro h j hj
                have he : i + 1 + j = i + (j + 1) := by omega
                rw [he]
                exact h (j + 1) (by simpa using hj)

/-- A load-attempt event records its character and outcome. -/
theorem visitsOf_cons_ftLoad (c : Char) (b : Bool) (l : List RtEvent) :
    visitsOf (RtEvent.ftLoad c b :: l) = (c, b) :: visitsOf l := by
  simp [visitsOf]

/-- A texture upload records no load attempt. -/
theorem visitsOf_cons_up (t : ℕ) (img : List ℕ) (l : List RtEvent) :
    visitsOf (RtEvent.texUpload t img :: l) = visitsOf l := by
  simp [visitsOf]

/-- A buffer upload records no load attempt. -/
theorem visitsOf_cons_buf (v : List FontVertex) (l : List RtEvent) :
    visitsOf (RtEvent.bufData v :: l) = visitsOf l := by
  simp [visitsOf]

/-- A log line records no load attempt. -/
theorem visitsOf_cons_log (m : LogMsg) (l : List RtEvent) :
    visitsOf (RtEvent.log m :: l) = visitsOf l := by
  simp [visitsOf]

/-- A draw call records no load attempt. -/
theorem visitsOf_cons_draw (cu : ℚ × ℚ) (g : Glyph) (v : List FontVertex)
    (l : List RtEvent) :
    visitsOf (RtEvent.drawCall cu g v :: l) = visitsOf l := by
  simp [visitsOf]

/-- The glyph loop reads nothing past the first NUL byte: it behaves
identically on the text truncated there. -/
theorem rtLoop_preNul (ft : Char → Option Glyph) (ge : GLErr) (ftx : ℕ)
    (plane : ℤ) (z sx sy : ℚ) :
    ∀ (text : List Char) (i : ℕ) (st : LoopSt),
      rtLoop ft ge ftx plane z sx sy text i st =
        rtLoop ft ge ftx plane z sx sy (preNul text) i st := by
  intro text
  induction text with
  | nil => intro i st; rfl
  | cons c rest ih =>
    intro i st
    by_cases hc : c = Char.ofNat 0
    · rw [rtLoop_cons_nul ft ge ftx plane z sx sy c rest i st hc,
        preNul_cons_nul c rest hc, rtLoop_nil]
    · rw [preNul_cons c rest hc]
      cases hft : ft c with
      | none =>
        rw [rtLoop_cons_skip ft ge ftx plane z sx sy c rest i st hc hft,
          rtLoop_cons_skip ft ge ftx plane z sx sy c (preNul rest) i st hc
            hft, ih i st]
      | some g =>
        rw [rtLoop_cons_glyph ft ge ftx plane z sx sy c rest i st g hc hft,
          rtLoop_cons_glyph ft ge ftx plane z sx sy c (preNul rest) i st g hc
            hft, ih (i + 1)]

/-- A clean run of the glyph loop (no OpenGL error at any checkpoint):
it completes, attempts each pre-NUL character once in order recording the
load outcome, draws exactly the glyphs that load in order, leaves the cursor
at the fold of the per-glyph advances over those glyphs, and uploads exactly
their bitmaps in order to the bound font texture. -/
theorem rtLoop_clean (ft : Char → Option Glyph) (ge : GLErr) (ftx : ℕ)
    (plane : ℤ) (z sx sy : ℚ)
    (hge : ∀ j, ge.texParams j = false ∧ ge.texImage j = false ∧
      ge.bufferData j = false) :
    ∀ (text : List Char) (i : ℕ) (st : LoopSt),
      (rtLoop ft ge ftx plane z sx sy text i st).ok = true ∧
      visitsOf (rtLoop ft ge ftx plane z sx sy text i st).evs =
        (preNul text).map (fun c => (c, (ft c).isSome)) ∧
      (drawRecs (rtLoop ft ge ftx plane z sx sy text i st).evs).map
        (fun d => d.glyph) = loadedGlyphs ft text ∧
      ((rtLoop ft ge ftx plane z sx sy text i st).st.x,
       (rtLoop ft ge ftx plane z sx sy text i st).st.y) =
        List.foldl (stepQ sx sy) (st.x, st.y) (loadedGlyphs ft text) ∧
      uploadsOf (rtLoop ft ge ftx plane z sx sy text i st).evs =
        (loadedGlyphs ft text).map (fun g => (ftx, g.bitmap)) := by
  intro text
  induction text with
  | nil =>
    intro i st
    rw [rtLoop_nil, loadedGlyphs_nil]
    simp [visitsOf, uploadsOf, drawRecs, preNul]
  | cons c rest ih =>
    intro i st
    by_cases hc : c = Char.ofNat 0
    · rw [rtLoop_cons_nul ft ge ftx plane z sx sy c rest i st hc,
        loadedGlyphs_cons_nul ft c rest hc, preNul_cons_nul c rest hc]
      simp [visitsOf, uploadsOf, drawRecs]
    · cases hft : ft c with
      | none =>
        rw [rtLoop_cons_skip ft ge ftx plane z sx sy c rest i st hc hft,
          loadedGlyphs_cons_skip ft c rest hc hft, preNul_cons c rest hc]
        dsimp only
        obtain ⟨ihA, ihB, ihC, ihD, ihE⟩ := ih i st
        refine ⟨ihA, ?_, ?_, ihD, ?_⟩
        · rw [visitsOf_cons_ftLoad, ihB, List.map_cons, hft]
          rfl
        · rw [drawRecs_cons_ftLoad, ihC]
        · rw [uploadsOf_cons_ftLoad, ihE]
      | some g =>
        rw [rtLoop_cons_glyph ft ge ftx plane z sx sy c rest i st g hc hft,
          loadedGlyphs_cons_glyph ft c rest g hc hft, preNul_cons c rest hc]
        rw [glyphStep_clean ge ftx plane z sx sy i g st (hge i).1 (hge i).2.1
          (hge i).2.2]
        dsimp only
        rw [if_pos rfl]
        dsimp only
        obtain ⟨ihA, ihB, ihC, ihD, ihE⟩ := ih (i + 1)
          ⟨st.x + ((Int.tdiv g.advanceX 64 : ℤ) : ℚ) * sx,
           st.y + ((Int.tdiv g.advanceY 64 : ℤ) : ℚ) * sy,
           mkBuf plane z sx sy st g⟩
        refine ⟨ihA, ?_, ?_, ?_, ?_⟩
        · rw [visitsOf_cons_ftLoad, List.cons_append, List.cons_append,
            List.cons_append, List.nil_append, visitsOf_cons_up,
            visitsOf_cons_buf, visitsOf_cons_draw, ihB, List.map_cons, hft]
          rfl
        · rw [drawRecs_cons_ftLoad, List.cons_append, List.cons_append,
            List.cons_append, List.nil_append, drawRecs_cons_up,
            drawRecs_cons_buf, drawRecs_cons_draw, List.map_cons, ihC]
        · rw [List.foldl_cons]
          exact ihD
        · rw [uploadsOf_cons_ftLoad, List.cons_append, List.cons_append,
            List.cons_append, List.nil_append, uploadsOf_cons_up,
            uploadsOf_cons_buf, uploadsOf_cons_draw, ihE, List.map_cons]

/-- A texture generation contributes no draw record. -/
theorem drawRecs_cons_gen (n : ℕ) (l : List RtEvent) :
    drawRecs (RtEvent.genTex n :: l) = drawRecs l := by
  simp [drawRecs]

/-- A texture bind contributes no draw record. -/
theorem drawRecs_cons_bind (n : ℕ) (l : List RtEvent) :
    drawRecs (RtEvent.bindTex n :: l) = drawRecs l := by
  simp [drawRecs]

/-- A texture generation contributes no buffer upload. -/
theorem bufLists_cons_gen (n : ℕ) (l : List RtEvent) :
    bufLists (RtEvent.genTex n :: l) = bufLists l := by
  simp [bufLists]

/-- A texture bind contributes no buffer upload. -/
theorem bufLists_cons_bind (n : ℕ) (l : List RtEvent) :
    bufLists (RtEvent.bindTex n :: l) = bufLists l := by
  simp [bufLists]

/-- A texture generation contributes no texture upload. -/
theorem uploadsOf_cons_gen (n : ℕ) (l : List RtEvent) :
    uploadsOf (RtEvent.genTex n :: l) = uploadsOf l := by
  simp [uploadsOf]

/-- A texture bind contributes no texture upload. -/
theorem uploadsOf_cons_bind (n : ℕ) (l : List RtEvent) :
    uploadsOf (RtEvent.bindTex n :: l) = uploadsOf l := by
  simp [uploadsOf]

/-- A texture generation counts as one generation. -/
theorem genCount_cons_gen (n : ℕ) (l : List RtEvent) :
    genCount (RtEvent.genTex n :: l) = genCount l + 1 := by
  simp [genCount, Nat.add_comm]

/-- A texture bind counts as no generation. -/
theorem genCount_cons_bind (n : ℕ) (l : List RtEvent) :
    genCount (RtEvent.bindTex n :: l) = genCount l := by
  simp [genCount]

/-- A log line counts as no generation. -/
theorem genCount_cons_log (m : LogMsg) (l : List RtEvent) :
    genCount (RtEvent.log m :: l) = genCount l := by
  simp [genCount]

/-- `render_text` with no loaded face: log and return false. -/
theorem render_text_none (ge : GLErr) (gs : GlobalGL) (text : List Char)
    (x y z sx sy : ℚ) (plane : ℤ) :
    render_text none ge gs text x y z sx sy plane =
      ⟨false, gs, [RtEvent.log LogMsg.noFace]⟩ := rfl

/-- `render_text` when the use-program checkpoint reports an error. -/
theorem render_text_up (ft : Char → Option Glyph) (ge : GLErr)
    (gs : GlobalGL) (text : List Char) (x y z sx sy : ℚ) (plane : ℤ)
    (h : ge.useProgram = true) :
    render_text (some ft) ge gs text x y z sx sy plane =
      ⟨false, gs, [RtEvent.log LogMsg.errUseProgram]⟩ := by
  simp [render_text, h]

/-- `render_text` when the texture-activation checkpoint reports an error. -/
theorem render_text_at (ft : Char → Option Glyph) (ge : GLErr)
    (gs : GlobalGL) (text : List Char) (x y z sx sy : ℚ) (plane : ℤ)
    (h1 : ge.useProgram = false) (h : ge.activeTexture = true) :
    render_text (some ft) ge gs text x y z sx sy plane =
      ⟨false, gs, [RtEvent.log LogMsg.errActiveTexture]⟩ := by
  simp [render_text, h1, h]

/-- `render_text` when the blend-enable checkpoint reports an error. -/
theorem render_text_blend (ft : Char → Option Glyph) (ge : GLErr)
    (gs : GlobalGL) (text : List Char) (x y z sx sy : ℚ) (plane : ℤ)
    (h1 : ge.useProgram = false) (h2 : ge.activeTexture = false)
    (h : ge.blend = true) :
    render_text (some ft) ge gs text x y z sx sy plane =
      ⟨false, gs, [RtEvent.log LogMsg.errBlend]⟩ := by
  simp [render_text, h1, h2, h]

/-- `render_text` when the texture-binding checkpoint reports an error:
the font texture may have been generated, then binding fails. -/
theorem render_text_bind (ft : Char → Option Glyph) (ge : GLErr)
    (gs : GlobalGL) (text : List Char) (x y z sx sy : ℚ) (plane : ℤ)
    (h1 : ge.useProgram = false) (h2 : ge.activeTexture = false)
    (h3 : ge.blend = false) (h : ge.bindTexture = true) :
    render_text (some ft) ge gs text x y z sx sy plane =
      ⟨false,
       if gs.fontTex = 0 then
         ⟨gs.nextTex, gs.nextTex + 1, gs.genCalls + 1, gs.onTex⟩
       else gs,
       (if gs.fontTex = 0 then [RtEvent.genTex gs.nextTex] else []) ++
         [RtEvent.bindTex
            (if gs.fontTex = 0 then
              (⟨gs.nextTex, gs.nextTex + 1, gs.genCalls + 1, gs.onTex⟩ :
                GlobalGL)
             else gs).fontTex,
          RtEvent.log LogMsg.errBindTexture]⟩ := by
  simp only [render_text, h1, h2, h3, h, Bool.false_eq_true, if_false,
    if_true]

/-- `render_text` past all prologue checkpoints: generate the font texture
if needed, bind it, run the glyph loop, and rebind `g_on_tex` on success. -/
theorem render_text_run (ft : Char → Option Glyph) (ge : GLErr)
    (gs : GlobalGL) (text : List Char) (x y z sx sy : ℚ) (plane : ℤ)
    (h1 : ge.useProgram = false) (h2 : ge.activeTexture = false)
    (h3 : ge.blend = false) (h4 : ge.bindTexture = false) :
    render_text (some ft) ge gs text x y z sx sy plane =
      (if (rtLoop ft ge
            (if gs.fontTex = 0 then
              (⟨gs.nextTex, gs.nextTex + 1, gs.genCalls + 1, gs.onTex⟩ :
                GlobalGL)
             else gs).fontTex plane z sx sy text 0 ⟨x, y, []⟩).ok then
        ⟨true,
         if gs.fontTex = 0 then
           ⟨gs.nextTex, gs.nextTex + 1, gs.genCalls + 1, gs.onTex⟩
         else gs,
         (if gs.fontTex = 0 then [RtEvent.genTex gs.nextTex] else []) ++
           RtEvent.bindTex
             (if gs.fontTex = 0 then
               (⟨gs.nextTex, gs.nextTex + 1, gs.genCalls + 1, gs.onTex⟩ :
                 GlobalGL)
              else gs).fontTex ::
             ((rtLoop ft ge
                (if gs.fontTex = 0 then
                  (⟨gs.nextTex, gs.nextTex + 1, gs.genCalls + 1, gs.onTex⟩ :
                    GlobalGL)
                 else gs).fontTex plane z sx sy text 0 ⟨x, y, []⟩).evs ++
              [RtEvent.bindTex
                (if gs.fontTex = 0 then
                  (⟨gs.nextTex, gs.nextTex + 1, gs.genCalls + 1, gs.onTex⟩ :
                    GlobalGL)
                 else gs).onTex])⟩
      else
        ⟨false,
         if gs.fontTex = 0 then
           ⟨gs.nextTex, gs.nextTex + 1, gs.genCalls + 1, gs.onTex⟩
         else gs,
         (if gs.fontTex = 0 then [RtEvent.genTex gs.nextTex] else []) ++
           RtEvent.bindTex
             (if gs.fontTex = 0 then
               (⟨gs.nextTex, gs.nextTex + 1, gs.genCalls + 1, gs.onTex⟩ :
                 GlobalGL)
              else gs).fontTex ::
             (rtLoop ft ge
               (if gs.fontTex = 0 then
                 (⟨gs.nextTex, gs.nextTex + 1, gs.genCalls + 1, gs.onTex⟩ :
                   GlobalGL)
                else gs).fontTex plane z sx sy text 0 ⟨x, y, []⟩).evs⟩) := by
  simp only [render_text, h1, h2, h3, h4, Bool.false_eq_true, if_false]

/-- `render_text` never exits the process or sets the quit flag itself, and
whenever it returns false it has logged a message to standard error. -/
theorem render_text_no_exit (face : Option (Char → Option Glyph))
    (ge : GLErr) (gs : GlobalGL) (text : List Char) (x y z sx sy : ℚ)
    (plane : ℤ) :
    (∀ n, RtEvent.exitProg n ∉
      (render_text face ge gs text x y z sx sy plane).evs) ∧
    RtEvent.setQuit ∉ (render_text face ge gs text x y z sx sy plane).evs ∧
    ((render_text face ge gs text x y z sx sy plane).ok = false →
      ∃ m, RtEvent.log m ∈
        (render_text face ge gs text x y z sx sy plane).evs) := by
  cases face with
  | none =>
    rw [render_text_none]
    exact ⟨by simp, by simp, fun _ => ⟨LogMsg.noFace, by simp⟩⟩
  | some ft =>
    by_cases h1 : ge.useProgram = true
    · rw [render_text_up ft ge gs text x y z sx sy plane h1]
      exact ⟨by simp, by simp, fun _ => ⟨LogMsg.errUseProgram, by simp⟩⟩
    · have h1 : ge.useProgram = false := by
        revert h1; cases ge.useProgram <;> simp
      by_cases h2 : ge.activeTexture = true
      · rw [render_text_at ft ge gs text x y z sx sy plane h1 h2]
        exact ⟨by simp, by simp, fun _ => ⟨LogMsg.errActiveTexture, by simp⟩⟩
      · have h2 : ge.activeTexture = false := by
          revert h2; cases ge.activeTexture <;> simp
        by_cases h3 : ge.blend = true
        · rw [render_text_blend ft ge gs text x y z sx sy plane h1 h2 h3]
          exact ⟨by simp, by simp, fun _ => ⟨LogMsg.errBlend, by simp⟩⟩
        · have h3 : ge.blend = false := by
            revert h3; cases ge.blend <;> simp
          by_cases h4 : ge.bindTexture = true
          · rw [render_text_bind ft ge gs text x y z sx sy plane h1 h2 h3 h4]
            refine ⟨?_, ?_, fun _ => ⟨LogMsg.errBindTexture, ?_⟩⟩ <;>
              by_cases h0 : gs.fontTex = 0 <;> simp [h0]
          · have h4 : ge.bindTexture = false := by
              revert h4; cases ge.bindTexture <;> simp
            rw [render_text_run ft ge gs text x y z sx sy plane h1 h2 h3 h4]
            by_cases h0 : gs.fontTex = 0
            · simp only [if_pos h0]
              obtain ⟨ihA, ihB, ihC, ihD, ihE⟩ := rtLoop_events ft ge
                gs.nextTex plane z sx sy text 0 ⟨x, y, []⟩
              cases hok : (rtLoop ft ge gs.nextTex plane z sx sy text 0
                  ⟨x, y, []⟩).ok
              · rw [if_neg (by simp)]
                refine ⟨?_, ?_, fun _ => ?_⟩
                · intro n
                  simp [List.mem_append, List.mem_cons, ihA n]
                · simp [List.mem_append, List.mem_cons, ihB]
                · obtain ⟨m, hm⟩ := ihE hok
                  exact ⟨m, by simp [List.mem_append, List.mem_cons, hm]⟩
              · rw [if_pos rfl]
                refine ⟨?_, ?_, fun hfalse => absurd hfalse (by simp)⟩
                · intro n
                  simp [List.mem_append, List.mem_cons, ihA n]
                · simp [List.mem_append, List.mem_cons, ihB]
            · simp only [if_neg h0]
              obtain ⟨ihA, ihB, ihC, ihD, ihE⟩ := rtLoop_events ft ge
                gs.fontTex plane z sx sy text 0 ⟨x, y, []⟩
              cases hok : (rtLoop ft ge gs.fontTex plane z sx sy text 0
                  ⟨x, y, []⟩).ok
              · rw [if_neg (by simp)]
                refine ⟨?_, ?_, fun _ => ?_⟩
                · intro n
                  simp [List.mem_append, List.mem_cons, ihA n]
                · simp [List.mem_append, List.mem_cons, ihB]
                · obtain ⟨m, hm⟩ := ihE hok
                  exact ⟨m, by simp [List.mem_append, List.mem_cons, hm]⟩
              · rw [if_pos rfl]
                refine ⟨?_, ?_, fun hfalse => absurd hfalse (by simp)⟩
                · intro n
                  simp [List.mem_append, List.mem_cons, ihA n]
                · simp [List.mem_append, List.mem_cons, ihB]

/-- An empty trace has no generation. -/
theorem genCount_nil : genCount [] = 0 := rfl

/-- An empty trace has no upload. -/
theorem uploadsOf_nil : uploadsOf [] = [] := rfl

/-- Global-GL bookkeeping of one `render_text` call: `g_on_tex` is
untouched; texture names stay positive; with the font texture already
generated nothing is generated again and the global state is unchanged;
with no font texture yet, either the call did not reach the generation
point (state unchanged, nothing generated, nothing uploaded) or it
generated exactly one texture name, the new `g_font_tex`; and every
texture upload of the call targets the call's final `g_font_tex`. -/
theorem render_text_gsfacts (face : Option (Char → Option Glyph))
    (ge : GLErr) (gs : GlobalGL) (text : List Char) (x y z sx sy : ℚ)
    (plane : ℤ) :
    (render_text face ge gs text x y z sx sy plane).gs.onTex = gs.onTex ∧
    (1 ≤ gs.nextTex →
      1 ≤ (render_text face ge gs text x y z sx sy plane).gs.nextTex) ∧
    (¬gs.fontTex = 0 →
      (render_text face ge gs text x y z sx sy plane).gs = gs ∧
      genCount (render_text face ge gs text x y z sx sy plane).evs = 0) ∧
    (gs.fontTex = 0 →
      ((render_text face ge gs text x y z sx sy plane).gs = gs ∧
       genCount (render_text face ge gs text x y z sx sy plane).evs = 0 ∧
       uploadsOf (render_text face ge gs text x y z sx sy plane).evs = []) ∨
      ((render_text face ge gs text x y z sx sy plane).gs.fontTex =
         gs.nextTex ∧
       genCount (render_text face ge gs text x y z sx sy plane).evs = 1)) ∧
    (∀ pr ∈ uploadsOf (render_text face ge gs text x y z sx sy plane).evs,
      pr.1 = (render_text face ge gs text x y z sx sy plane).gs.fontTex) := by
  cases face with
  | none =>
    rw [render_text_none]
    exact ⟨rfl, fun h => h, fun _ => ⟨rfl, rfl⟩, fun _ => Or.inl
      ⟨rfl, rfl, rfl⟩, by simp [uploadsOf]⟩
  | some ft =>
    by_cases h1 : ge.useProgram = true
    · rw [render_text_up ft ge gs text x y z sx sy plane h1]
      exact ⟨rfl, fun h => h, fun _ => ⟨rfl, rfl⟩, fun _ => Or.inl
        ⟨rfl, rfl, rfl⟩, by simp [uploadsOf]⟩
    · have h1 : ge.useProgram = false := by
        revert h1; cases ge.useProgram <;> simp
      by_cases h2 : ge.activeTexture = true
      · rw [render_text_at ft ge gs text x y z sx sy plane h1 h2]
        exact ⟨rfl, fun h => h, fun _ => ⟨rfl, rfl⟩, fun _ => Or.inl
          ⟨rfl, rfl, rfl⟩, by simp [uploadsOf]⟩
      · have h2 : ge.activeTexture = false := by
          revert h2; cases ge.activeTexture <;> simp
        by_cases h3 : ge.blend = true
        · rw [render_text_blend ft ge gs text x y z sx sy plane h1 h2 h3]
          exact ⟨rfl, fun h => h, fun _ => ⟨rfl, rfl⟩, fun _ => Or.inl
            ⟨rfl, rfl, rfl⟩, by simp [uploadsOf]⟩
        · have h3 : ge.blend = false := by
            revert h3; cases ge.blend <;> simp
          by_cases h4 : ge.bindTexture = true
          · rw [render_text_bind ft ge gs text x y z sx sy plane h1 h2 h3 h4]
            by_cases h0 : gs.fontTex = 0
            · rw [if_pos h0, if_pos h0]
              refine ⟨rfl, fun h => Nat.succ_le_succ (Nat.zero_le _),
                fun hn => absurd h0 hn, fun _ => Or.inr ⟨rfl, ?_⟩, ?_⟩
              · simp [genCount]
              · intro pr hpr
                simp [uploadsOf] at hpr
            · rw [if_neg h0, if_neg h0]
              refine ⟨rfl, fun h => h, fun _ => ⟨rfl, ?_⟩,
                fun habs => absurd habs h0, ?_⟩
              · simp [genCount]
              · intro pr hpr
                simp [uploadsOf] at hpr
          · have h4 : ge.bindTexture = false := by
              revert h4; cases ge.bindTexture <;> simp
            rw [render_text_run ft ge gs text x y z sx sy plane h1 h2 h3 h4]
            by_cases h0 : gs.fontTex = 0
            · simp only [if_pos h0]
              obtain ⟨ihA, ihB, ihC, ihD, ihE⟩ := rtLoop_events ft ge
                gs.nextTex plane z sx sy text 0 ⟨x, y, []⟩
              cases hok : (rtLoop ft ge gs.nextTex plane z sx sy text 0
                  ⟨x, y, []⟩).ok
              · rw [if_neg (by simp)]
                refine ⟨rfl, fun h => Nat.succ_le_succ (Nat.zero_le _),
                  fun hn => absurd h0 hn, fun _ => Or.inr ⟨rfl, ?_⟩, ?_⟩
                · rw [List.singleton_append, genCount_cons_gen,
                    genCount_cons_bind, ihC]
                · intro pr hpr
                  rw [List.singleton_append, uploadsOf_cons_gen,
                    uploadsOf_cons_bind] at hpr
                  exact ihD pr hpr
              · rw [if_pos rfl]
                refine ⟨rfl, fun h => Nat.succ_le_succ (Nat.zero_le _),
                  fun hn => absurd h0 hn, fun _ => Or.inr ⟨rfl, ?_⟩, ?_⟩
                · rw [List.singleton_append, genCount_cons_gen,
                    genCount_cons_bind, genCount_append, ihC,
                    genCount_cons_bind, genCount_nil]
                · intro pr hpr
                  rw [List.singleton_append, uploadsOf_cons_gen,
                    uploadsOf_cons_bind, uploadsOf_append,
                    uploadsOf_cons_bind, uploadsOf_nil,
                    List.append_nil] at hpr
                  exact ihD pr hpr
            · simp only [if_neg h0]
              obtain ⟨ihA, ihB, ihC, ihD, ihE⟩ := rtLoop_events ft ge
                gs.fontTex plane z sx sy text 0 ⟨x, y, []⟩
              cases hok : (rtLoop ft ge gs.fontTex plane z sx sy text 0
                  ⟨x, y, []⟩).ok
              · rw [if_neg (by simp)]
                refine ⟨rfl, fun h => h, fun _ => ⟨rfl, ?_⟩,
                  fun habs => absurd habs h0, ?_⟩
                · rw [List.nil_append, genCount_cons_bind, ihC]
                · intro pr hpr
                  rw [List.nil_append, uploadsOf_cons_bind] at hpr
                  exact ihD pr hpr
              · rw [if_pos rfl]
                refine ⟨rfl, fun h => h, fun _ => ⟨rfl, ?_⟩,
                  fun habs => absurd habs h0, ?_⟩
                · rw [List.nil_append, genCount_cons_bind, genCount_append,
                    ihC, genCount_cons_bind, genCount_nil]
                · intro pr hpr
                  rw [List.nil_append, uploadsOf_cons_bind,
                    uploadsOf_append, uploadsOf_cons_bind, uploadsOf_nil,
                    List.append_nil] at hpr
                  exact ihD pr hpr

/-- The clean oracle reports no error at any per-glyph checkpoint. -/
theorem cleanGE_flags (j : ℕ) :
    cleanGE.texParams j = false ∧ cleanGE.texImage j = false ∧
      cleanGE.bufferData j = false :=
  ⟨rfl, rfl, rfl⟩

/-- In an error-free call with a face, the texture uploads are exactly the
bitmaps of the glyphs that load, in order, each targeting the call's final
`g_font_tex`: every glyph iteration re-uploads into the same texture. -/
theorem render_text_clean_uploads (ft : Char → Option Glyph) (gs : GlobalGL)
    (text : List Char) (x y z sx sy : ℚ) (plane : ℤ) :
    uploadsOf (render_text (some ft) cleanGE gs text x y z sx sy plane).evs =
      (loadedGlyphs ft text).map (fun g =>
        ((render_text (some ft) cleanGE gs text x y z sx sy
            plane).gs.fontTex, g.bitmap)) := by
  rw [render_text_run ft cleanGE gs text x y z sx sy plane rfl rfl rfl rfl]
  by_cases h0 : gs.fontTex = 0
  · simp only [if_pos h0]
    obtain ⟨hok, hB, hC, hD, hE⟩ := rtLoop_clean ft cleanGE gs.nextTex plane
      z sx sy cleanGE_flags text 0 ⟨x, y, []⟩
    rw [if_pos hok]
    rw [List.singleton_append, uploadsOf_cons_gen, uploadsOf_cons_bind,
      uploadsOf_append, uploadsOf_cons_bind, uploadsOf_nil, List.append_nil,
      hE]
  · simp only [if_neg h0]
    obtain ⟨hok, hB, hC, hD, hE⟩ := rtLoop_clean ft cleanGE gs.fontTex plane
      z sx sy cleanGE_flags text 0 ⟨x, y, []⟩
    rw [if_pos hok]
    rw [List.nil_append, uploadsOf_cons_bind, uploadsOf_append,
      uploadsOf_cons_bind, uploadsOf_nil, List.append_nil, hE]

/-- Unfolding of a sequence of calls. -/
theorem renderCalls_cons (gs : GlobalGL) (a : CallArgs)
    (rest : List CallArgs) :
    renderCalls gs (a :: rest) =
      ((renderCalls (render_text a.face a.ge gs a.text a.x a.y a.z a.sx a.sy
          a.plane).gs rest).1,
       (render_text a.face a.ge gs a.text a.x a.y a.z a.sx a.sy
          a.plane).evs ++
         (renderCalls (render_text a.face a.ge gs a.text a.x a.y a.z a.sx
            a.sy a.plane).gs rest).2) := rfl

/-- Across any sequence of `render_text` calls starting with no font
texture: at most one texture name is ever generated, and every texture
upload of the whole trace targets the final `g_font_tex`; starting with the
font texture already generated nothing is generated and `g_font_tex` never
changes. -/
theorem renderCalls_facts :
    ∀ (calls : List CallArgs) (gs : GlobalGL), 1 ≤ gs.nextTex →
      1 ≤ (renderCalls gs calls).1.nextTex ∧
      (gs.fontTex = 0 →
        genCount (renderCalls gs calls).2 ≤ 1 ∧
        ∀ pr ∈ uploadsOf (renderCalls gs calls).2,
          pr.1 = (renderCalls gs calls).1.fontTex) ∧
      (¬gs.fontTex = 0 →
        genCount (renderCalls gs calls).2 = 0 ∧
        (renderCalls gs calls).1.fontTex = gs.fontTex ∧
        ∀ pr ∈ uploadsOf (renderCalls gs calls).2,
          pr.1 = (renderCalls gs calls).1.fontTex) := by
  intro calls
  induction calls with
  | nil =>
    intro gs h
    have e : renderCalls gs [] = (gs, []) := rfl
    rw [e]
    exact ⟨h, fun _ => ⟨by simp [genCount], by simp [uploadsOf]⟩,
      fun _ => ⟨rfl, rfl, by simp [uploadsOf]⟩⟩
  | cons a rest ih =>
    intro gs h
    rw [renderCalls_cons]
    obtain ⟨f1, f2, f3, f4, f5⟩ := render_text_gsfacts a.face a.ge gs a.text
      a.x a.y a.z a.sx a.sy a.plane
    obtain ⟨ih1, ih2, ih3⟩ := ih (render_text a.face a.ge gs a.text a.x a.y
      a.z a.sx a.sy a.plane).gs (f2 h)
    refine ⟨ih1, ?_, ?_⟩
    · intro hf
      rcases f4 hf with ⟨hgs, hg0, hup0⟩ | ⟨hft, hg1⟩
      · have hf2 : (render_text a.face a.ge gs a.text a.x a.y a.z a.sx a.sy
            a.plane).gs.fontTex = 0 := by rw [hgs]; exact hf
        obtain ⟨ihg, ihu⟩ := ih2 hf2
        constructor
        · rw [genCount_append, hg0]
          simpa using ihg
        · intro pr hpr
          rw [uploadsOf_append, List.mem_append, hup0] at hpr
          rcases hpr with habs | hpr2
          · simp at habs
          · exact ihu pr hpr2
      · have hf2 : ¬(render_text a.face a.ge gs a.text a.x a.y a.z a.sx a.sy
            a.plane).gs.fontTex = 0 := by
          rw [hft]; omega
        obtain ⟨ihg, ihft, ihu⟩ := ih3 hf2
        constructor
        · rw [genCount_append, hg1, ihg]
        · intro pr hpr
          rw [uploadsOf_append, List.mem_append] at hpr
          rcases hpr with hpr1 | hpr2
          · rw [f5 pr hpr1, ← ihft]
          · exact ihu pr hpr2
    · intro hf
      obtain ⟨hgs, hg0⟩ := f3 hf
      have hf2 : ¬(render_text a.face a.ge gs a.text a.x a.y a.z a.sx a.sy
          a.plane).gs.fontTex = 0 := by rw [hgs]; exact hf
      obtain ⟨ihg, ihft, ihu⟩ := ih3 hf2
      refine ⟨?_, ?_, ?_⟩
      · rw [genCount_append, hg0, ihg]
      · rw [ihft, hgs]
      · intro pr hpr
        rw [uploadsOf_append, List.mem_append] at hpr
        rcases hpr with hpr1 | hpr2
        · rw [f5 pr hpr1, ← ihft]
        · exact ihu pr hpr2

/-- A list with no newline has all its characters after the last newline. -/
theorem sinceNewline_no_nl : ∀ (l : List Char), '\n' ∉ l →
    sinceNewline l = l.length := by
  intro l
  induction l with
  | nil => intro _; rfl
  | cons c cs ih =>
    intro h
    rw [List.mem_cons, not_or] at h
    have hc : ¬ c = '\n' := fun hcc => h.1 hcc.symm
    simp [sinceNewline, hc, h.2]

/-- One step of the scan on a newline. -/
theorem scanAux_cons_nl (c : Char) (cs : List Char) (px pz : ℕ)
    (h : c = '\n') :
    scanAux (c :: cs) px pz = scanAux cs ((px + (M32 - 4)) % M32) 0 := by
  have hat : ¬ c = '@' := by rw [h]; decide
  simp [scanAux, hat, h]

/-- One step of the scan on an ordinary character. -/
theorem scanAux_cons_ch (c : Char) (cs : List Char) (px pz : ℕ)
    (h1 : ¬ c = '@') (h2 : ¬ c = '\n') :
    scanAux (c :: cs) px pz = scanAux cs px ((pz + 4) % M32) := by
  simp [scanAux, h1, h2]

/-- The scan stops at '@'. -/
theorem scanAux_cons_at (c : Char) (cs : List Char) (px pz : ℕ)
    (h : c = '@') : scanAux (c :: cs) px pz = (px, pz) := by
  simp [scanAux, h]

/-- 2^32 is positive. -/
theorem M32_pos : 0 < M32 := by norm_num [M32]

/-- Closed form of the '@' scan from any in-range state: `playerX` has been
decremented by 4 (mod 2^32) once per newline, and `playerZ` is 4 times the
number of characters after the last newline (mod 2^32), continuing the
incoming count when no newline occurred. -/
theorem scanAux_append : ∀ (pre : List Char) (rest : List Char) (px pz : ℕ),
    '@' ∉ pre → px < M32 → pz < M32 →
    scanAux (pre ++ '@' :: rest) px pz =
      ((px + (M32 - 4) * nlCount pre) % M32,
       if '\n' ∈ pre then (4 * sinceNewline pre) % M32
       else (pz + 4 * sinceNewline pre) % M32) := by
  intro pre
  induction pre with
  | nil =>
    intro rest px pz _ hx hz
    rw [List.nil_append, scanAux_cons_at '@' rest px pz rfl]
    simp [nlCount, sinceNewline, Nat.mod_eq_of_lt hx, Nat.mod_eq_of_lt hz]
  | cons c cs ih =>
    intro rest px pz hat hx hz
    rw [List.mem_cons, not_or] at hat
    have hc : ¬ c = '@' := fun hcc => hat.1 hcc.symm
    by_cases hnl : c = '\n'
    · rw [List.cons_append, scanAux_cons_nl c _ px pz hnl,
        ih rest ((px + (M32 - 4)) % M32) 0 hat.2 (Nat.mod_lt _ M32_pos)
          M32_pos]
      subst hnl
      rw [Prod.mk.injEq]
      constructor
      · rw [Nat.mod_add_mod]
        have he : px + (M32 - 4) + (M32 - 4) * nlCount cs =
            px + (M32 - 4) * ((if ('\n' : Char) = '\n' then 1 else 0) +
              nlCount cs) := by
          simp
          ring
        rw [he]
        rfl
      · have hsn : sinceNewline ('\n' :: cs) = sinceNewline cs := by
          simp [sinceNewline]
        rw [hsn]
        simp only [List.mem_cons, true_or, if_true, if_pos rfl]
        by_cases hmem : '\n' ∈ cs
        · rw [if_pos hmem]
        · rw [if_neg hmem, Nat.zero_add]
    · rw [List.cons_append, scanAux_cons_ch c _ px pz hc hnl,
        ih rest px ((pz + 4) % M32) hat.2 hx (Nat.mod_lt _ M32_pos)]
      rw [Prod.mk.injEq]
      constructor
      · have he : nlCount (c :: cs) = nlCount cs := by
          simp [nlCount, hnl]
        rw [he]
      · by_cases hmem : '\n' ∈ cs
        · rw [if_pos hmem, if_pos (List.mem_cons_of_mem c hmem)]
          have hsn : sinceNewline (c :: cs) = sinceNewline cs := by
            simp [sinceNewline, hnl, hmem]
          rw [hsn]
        · have hnot : ¬('\n' ∈ c :: cs) := by
            rw [List.mem_cons]
            rintro (habs | habs)
            · exact hnl habs.symm
            · exact hmem habs
          rw [if_neg hmem, if_neg hnot]
          have hsn : sinceNewline (c :: cs) = cs.length + 1 := by
            simp [sinceNewline, hnl, hmem]
          have hsn2 : sinceNewline cs = cs.length :=
            sinceNewline_no_nl cs hmem
          rw [hsn, hsn2, Nat.mod_add_mod]
          have he : pz + 4 + 4 * cs.length = pz + 4 * (cs.length + 1) := by
            ring
          rw [he]

/-- `playerX` after `n` newlines equals `(-4 * n) mod 2^32` (as the GLuint
bit pattern). -/
theorem wrap_px (n : ℕ) :
    ((M32 - 4) * n) % M32 = (((-4) * (n : ℤ)) % (M32 : ℤ)).toNat := by
  have hcast : (((M32 - 4) * n % M32 : ℕ) : ℤ) =
      ((-4) * (n : ℤ)) % (M32 : ℤ) := by
    push_cast [M32]
    have he : (4294967292 : ℤ) * (n : ℤ) =
        (-4) * (n : ℤ) + 4294967296 * (n : ℤ) := by ring
    rw [he, Int.add_mul_emod_self_left]
  omega

/-- With `0 < n` newlines and no 32-bit wrap of `4 * n`, `playerX` lands at
`2^32 - 4 * n`, a value near `2^32`. -/
theorem wrap_px_small (n : ℕ) (h1 : 0 < n) (h2 : 4 * n < M32) :
    ((M32 - 4) * n) % M32 = M32 - 4 * n := by
  obtain ⟨m, rfl⟩ : ∃ m, n = m + 1 := ⟨n - 1, by omega⟩
  have h4 : 4 ≤ M32 := by norm_num [M32]
  have hb : M32 * (m + 1) = M32 * m + M32 := by ring
  have he : (M32 - 4) * (m + 1) = (M32 - 4 * (m + 1)) + M32 * m := by
    rw [Nat.sub_mul]
    omega
  rw [he, Nat.add_mul_mod_self_left, Nat.mod_eq_of_lt (by omega)]

/-- A replicated non-newline character contains no newline. -/
theorem nlCount_replicate (n : ℕ) (c : Char) (h : ¬ c = '\n') :
    nlCount (List.replicate n c) = 0 := by
  induction n with
  | zero => rfl
  | succ m ih => simp [List.replicate, nlCount, h, ih]

/-- C1: after drawing each successfully loaded glyph, render_text's glyph
loop advances the text cursor by `(advance.x / 64) * sx` in x and
`(advance.y / 64) * sy` in y (C truncating integer division of the 26.6
fixed-point advance): the first draw uses the caller's cursor, every
subsequent draw's cursor is the previous draw's cursor advanced by the
previous glyph, and the loop's final cursor advances past the last drawn
glyph; this holds for every character of every null-terminated string. -/
theorem render_text_cursor_advance (ft : Char → Option Glyph) (ge : GLErr)
    (ftx : ℕ) (plane : ℤ) (z sx sy : ℚ) (text : List Char) (i : ℕ)
    (st : LoopSt) :
    (∀ a, (drawRecs (rtLoop ft ge ftx plane z sx sy text i st).evs).head? =
        some a → a.cursor = (st.x, st.y)) ∧
    List.Chain' (fun a b => b.cursor = stepQ sx sy a.cursor a.glyph)
      (drawRecs (rtLoop ft ge ftx plane z sx sy text i st).evs) ∧
    (drawRecs (rtLoop ft ge ftx plane z sx sy text i st).evs = [] →
      ((rtLoop ft ge ftx plane z sx sy text i st).st.x,
       (rtLoop ft ge ftx plane z sx sy text i st).st.y) = (st.x, st.y)) ∧
    (∀ a, (drawRecs (rtLoop ft ge ftx plane z sx sy text i st).evs).getLast? =
        some a →
      ((rtLoop ft ge ftx plane z sx sy text i st).st.x,
       (rtLoop ft ge ftx plane z sx sy text i st).st.y) =
        stepQ sx sy a.cursor a.glyph) :=
  rtLoop_cursor ft ge ftx plane z sx sy text i st

/-- Witness for C1 at a concrete one-character run. -/
theorem render_text_cursor_advance_witness :
    (∀ a, (drawRecs (rtLoop
        (fun c => if c = 'A' then some ⟨0, 0, 1, 1, 64, 0, []⟩ else none)
        cleanGE 1 0 0 1 1 ['A'] 0 ⟨0, 0, []⟩).evs).head? = some a →
      a.cursor = ((0 : ℚ), (0 : ℚ))) ∧
    List.Chain' (fun a b => b.cursor = stepQ 1 1 a.cursor a.glyph)
      (drawRecs (rtLoop
        (fun c => if c = 'A' then some ⟨0, 0, 1, 1, 64, 0, []⟩ else none)
        cleanGE 1 0 0 1 1 ['A'] 0 ⟨0, 0, []⟩).evs) ∧
    (drawRecs (rtLoop
        (fun c => if c = 'A' then some ⟨0, 0, 1, 1, 64, 0, []⟩ else none)
        cleanGE 1 0 0 1 1 ['A'] 0 ⟨0, 0, []⟩).evs = [] →
      ((rtLoop (fun c => if c = 'A' then some ⟨0, 0, 1, 1, 64, 0, []⟩
          else none) cleanGE 1 0 0 1 1 ['A'] 0 ⟨0, 0, []⟩).st.x,
       (rtLoop (fun c => if c = 'A' then some ⟨0, 0, 1, 1, 64, 0, []⟩
          else none) cleanGE 1 0 0 1 1 ['A'] 0 ⟨0, 0, []⟩).st.y) =
        ((0 : ℚ), (0 : ℚ))) ∧
    (∀ a, (drawRecs (rtLoop
        (fun c => if c = 'A' then some ⟨0, 0, 1, 1, 64, 0, []⟩ else none)
        cleanGE 1 0 0 1 1 ['A'] 0 ⟨0, 0, []⟩).evs).getLast? = some a →
      ((rtLoop (fun c => if c = 'A' then some ⟨0, 0, 1, 1, 64, 0, []⟩
          else none) cleanGE 1 0 0 1 1 ['A'] 0 ⟨0, 0, []⟩).st.x,
       (rtLoop (fun c => if c = 'A' then some ⟨0, 0, 1, 1, 64, 0, []⟩
          else none) cleanGE 1 0 0 1 1 ['A'] 0 ⟨0, 0, []⟩).st.y) =
        stepQ 1 1 a.cursor a.glyph) :=
  render_text_cursor_advance
    (fun c => if c = 'A' then some ⟨0, 0, 1, 1, 64, 0, []⟩ else none)
    cleanGE 1 0 0 1 1 ['A'] 0 ⟨0, 0, []⟩

/-- C3 (amended): every quad emitted by render_text lies in one fixed
coordinate plane selected by the plane argument: with plane = 0 (XY) all
six vertices share the caller's z coordinate; with plane = 1 (XZ) all six
share the cursor's y at that glyph (equal to the caller's y plus the
accumulated advance.y contributions, so the caller's y for the first
glyph); with plane = 2 (YZ) all six share the cursor's x at that glyph
(the caller's x plus the accumulated advance.x contributions). -/
theorem render_text_plane_fixed_coord (face : Option (Char → Option Glyph))
    (ge : GLErr) (gs : GlobalGL) (text : List Char) (x y z sx sy : ℚ)
    (plane : ℤ) :
    ∀ d ∈ drawRecs (render_text face ge gs text x y z sx sy plane).evs,
      (plane = 0 → ∀ v ∈ d.verts, v.pz = z) ∧
      (plane = 1 → ∀ v ∈ d.verts, v.py = d.cursor.2) ∧
      (plane = 2 → ∀ v ∈ d.verts, v.px = d.cursor.1) := by
  cases face with
  | none =>
    rw [render_text_none]
    simp [drawRecs]
  | some ft =>
    by_cases h1 : ge.useProgram = true
    · rw [render_text_up ft ge gs text x y z sx sy plane h1]
      simp [drawRecs]
    · have h1 : ge.useProgram = false := by
        revert h1; cases ge.useProgram <;> simp
      by_cases h2 : ge.activeTexture = true
      · rw [render_text_at ft ge gs text x y z sx sy plane h1 h2]
        simp [drawRecs]
      · have h2 : ge.activeTexture = false := by
          revert h2; cases ge.activeTexture <;> simp
        by_cases h3 : ge.blend = true
        · rw [render_text_blend ft ge gs text x y z sx sy plane h1 h2 h3]
          simp [drawRecs]
        · have h3 : ge.blend = false := by
            revert h3; cases ge.blend <;> simp
          by_cases h4 : ge.bindTexture = true
          · rw [render_text_bind ft ge gs text x y z sx sy plane h1 h2 h3 h4]
            by_cases h0 : gs.fontTex = 0 <;> simp [h0, drawRecs]
          · have h4 : ge.bindTexture = false := by
              revert h4; cases ge.bindTexture <;> simp
            rw [render_text_run ft ge gs text x y z sx sy plane h1 h2 h3 h4]
            by_cases h0 : gs.fontTex = 0
            · simp only [if_pos h0]
              cases hok : (rtLoop ft ge gs.nextTex plane z sx sy text 0
                  ⟨x, y, []⟩).ok
              · rw [if_neg (by simp)]
                intro d hd
                rw [List.singleton_append, drawRecs_cons_gen,
                  drawRecs_cons_bind] at hd
                obtain ⟨p0, p1, p2, _⟩ := rtLoop_planes ft ge gs.nextTex
                  plane z sx sy text 0 ⟨x, y, []⟩ d hd
                exact ⟨p0, p1, p2⟩
              · rw [if_pos rfl]
                intro d hd
                rw [List.singleton_append, drawRecs_cons_gen,
                  drawRecs_cons_bind, drawRecs_append] at hd
                rw [List.mem_append] at hd
                rcases hd with hd | hd
                · obtain ⟨p0, p1, p2, _⟩ := rtLoop_planes ft ge gs.nextTex
                    plane z sx sy text 0 ⟨x, y, []⟩ d hd
                  exact ⟨p0, p1, p2⟩
                · rw [drawRecs_cons_bind] at hd
                  simp [drawRecs] at hd
            · simp only [if_neg h0]
              cases hok : (rtLoop ft ge gs.fontTex plane z sx sy text 0
                  ⟨x, y, []⟩).ok
              · rw [if_neg (by simp)]
                intro d hd
                rw [List.nil_append, drawRecs_cons_bind] at hd
                obtain ⟨p0, p1, p2, _⟩ := rtLoop_planes ft ge gs.fontTex
                  plane z sx sy text 0 ⟨x, y, []⟩ d hd
                exact ⟨p0, p1, p2⟩
              · rw [if_pos rfl]
                intro d hd
                rw [List.nil_append, drawRecs_cons_bind,
                  drawRecs_append] at hd
                rw [List.mem_append] at hd
                rcases hd with hd | hd
                · obtain ⟨p0, p1, p2, _⟩ := rtLoop_planes ft ge gs.fontTex
                    plane z sx sy text 0 ⟨x, y, []⟩ d hd
                  exact ⟨p0, p1, p2⟩
                · rw [drawRecs_cons_bind] at hd
                  simp [drawRecs] at hd

/-- Witness for C3 at a concrete two-character YZ-plane run. -/
theorem render_text_plane_fixed_coord_witness :
    ((2 : ℤ) = 0 → ∀ v ∈ (⟨((0 : ℚ), (0 : ℚ)), ⟨0, 0, 1, 1, 64, 0, []⟩,
        mkBuf 2 0 1 1 ⟨0, 0, []⟩ ⟨0, 0, 1, 1, 64, 0, []⟩⟩ : DrawRec).verts,
      v.pz = (0 : ℚ)) ∧
    ((2 : ℤ) = 1 → ∀ v ∈ (⟨((0 : ℚ), (0 : ℚ)), ⟨0, 0, 1, 1, 64, 0, []⟩,
        mkBuf 2 0 1 1 ⟨0, 0, []⟩ ⟨0, 0, 1, 1, 64, 0, []⟩⟩ : DrawRec).verts,
      v.py = (⟨((0 : ℚ), (0 : ℚ)), ⟨0, 0, 1, 1, 64, 0, []⟩,
        mkBuf 2 0 1 1 ⟨0, 0, []⟩ ⟨0, 0, 1, 1, 64, 0, []⟩⟩ :
          DrawRec).cursor.2) ∧
    ((2 : ℤ) = 2 → ∀ v ∈ (⟨((0 : ℚ), (0 : ℚ)), ⟨0, 0, 1, 1, 64, 0, []⟩,
        mkBuf 2 0 1 1 ⟨0, 0, []⟩ ⟨0, 0, 1, 1, 64, 0, []⟩⟩ : DrawRec).verts,
      v.px = (⟨((0 : ℚ), (0 : ℚ)), ⟨0, 0, 1, 1, 64, 0, []⟩,
        mkBuf 2 0 1 1 ⟨0, 0, []⟩ ⟨0, 0, 1, 1, 64, 0, []⟩⟩ :
          DrawRec).cursor.1) :=
  render_text_plane_fixed_coord
    (some (fun c => if c = 'A' then some ⟨0, 0, 1, 1, 64, 0, []⟩ else none))
    cleanGE ⟨0, 1, 0, 7⟩ ['A', 'A'] 0 0 0 1 1 2
    ⟨((0 : ℚ), (0 : ℚ)), ⟨0, 0, 1, 1, 64, 0, []⟩,
      mkBuf 2 0 1 1 ⟨0, 0, []⟩ ⟨0, 0, 1, 1, 64, 0, []⟩⟩
    (by norm_num [render_text, rtLoop, glyphStep, mkBuf, addFontQuadYZ,
      drawRecs, cleanGE, List.filterMap])

/-- Counterexample to C3 as stated: in a YZ-plane (plane = 2) run of two
characters with caller x = 0, the second glyph's quad has all six x
coordinates equal to 1 (the advanced cursor), not the caller's x. -/
theorem render_text_plane_caller_coord_cex :
    (drawRecs (render_text
        (some (fun c => if c = 'A' then some ⟨0, 0, 1, 1, 64, 0, []⟩
          else none)) cleanGE ⟨0, 1, 0, 7⟩ ['A', 'A'] 0 0 0 1 1 2).evs).map
      (fun d => d.verts.map (fun v => v.px)) =
      [List.replicate 6 0, List.replicate 6 1] ∧ (1 : ℚ) ≠ 0 := by
  constructor
  · norm_num [render_text, rtLoop, glyphStep, mkBuf, addFontQuadYZ, drawRecs,
      cleanGE, List.filterMap, List.replicate]
  · norm_num

/-- C4: in an error-free run with a recognized plane, render_text's glyph
loop reads nothing past the first NUL byte, attempts each pre-NUL character
exactly once in order, skips entirely every character whose glyph fails to
load (no draw and no cursor contribution), issues exactly one draw of one
six-vertex quad per remaining character, and moves the cursor by the fold
of the per-glyph advances only — a function of each glyph alone, with no
batching and no kerning between consecutive characters. -/
theorem render_text_glyph_loop (ft : Char → Option Glyph) (ge : GLErr)
    (ftx : ℕ) (plane : ℤ) (z sx sy : ℚ) (text : List Char) (i : ℕ)
    (st : LoopSt)
    (hge : ∀ j, ge.texParams j = false ∧ ge.texImage j = false ∧
      ge.bufferData j = false)
    (hplane : plane = 0 ∨ plane = 1 ∨ plane = 2) :
    rtLoop ft ge ftx plane z sx sy text i st =
      rtLoop ft ge ftx plane z sx sy (preNul text) i st ∧
    visitsOf (rtLoop ft ge ftx plane z sx sy text i st).evs =
      (preNul text).map (fun c => (c, (ft c).isSome)) ∧
    (drawRecs (rtLoop ft ge ftx plane z sx sy text i st).evs).map
      (fun d => d.glyph) = loadedGlyphs ft text ∧
    (∀ d ∈ drawRecs (rtLoop ft ge ftx plane z sx sy text i st).evs,
      d.verts.length = 6) ∧
    ((rtLoop ft ge ftx plane z sx sy text i st).st.x,
     (rtLoop ft ge ftx plane z sx sy text i st).st.y) =
      List.foldl (stepQ sx sy) (st.x, st.y) (loadedGlyphs ft text) := by
  obtain ⟨hA, hB, hC, hD, hE⟩ := rtLoop_clean ft ge ftx plane z sx sy hge
    text i st
  refine ⟨rtLoop_preNul ft ge ftx plane z sx sy text i st, hB, hC, ?_, hD⟩
  intro d hd
  exact (rtLoop_planes ft ge ftx plane z sx sy text i st d hd).2.2.2 hplane

/-- Witness for C4 at a concrete one-character clean run. -/
theorem render_text_glyph_loop_witness :
    rtLoop (fun c => if c = 'A' then some ⟨0, 0, 1, 1, 64, 0, []⟩ else none)
        cleanGE 1 0 0 1 1 ['A'] 0 ⟨0, 0, []⟩ =
      rtLoop (fun c => if c = 'A' then some ⟨0, 0, 1, 1, 64, 0, []⟩
        else none) cleanGE 1 0 0 1 1 (preNul ['A']) 0 ⟨0, 0, []⟩ ∧
    visitsOf (rtLoop (fun c => if c = 'A' then some ⟨0, 0, 1, 1, 64, 0, []⟩
        else none) cleanGE 1 0 0 1 1 ['A'] 0 ⟨0, 0, []⟩).evs =
      (preNul ['A']).map (fun c => (c, ((fun c => if c = 'A' then
        some (⟨0, 0, 1, 1, 64, 0, []⟩ : Glyph) else none) c).isSome)) ∧
    (drawRecs (rtLoop (fun c => if c = 'A' then
        some ⟨0, 0, 1, 1, 64, 0, []⟩ else none) cleanGE 1 0 0 1 1 ['A'] 0
        ⟨0, 0, []⟩).evs).map (fun d => d.glyph) =
      loadedGlyphs (fun c => if c = 'A' then some ⟨0, 0, 1, 1, 64, 0, []⟩
        else none) ['A'] ∧
    (∀ d ∈ drawRecs (rtLoop (fun c => if c = 'A' then
        some ⟨0, 0, 1, 1, 64, 0, []⟩ else none) cleanGE 1 0 0 1 1 ['A'] 0
        ⟨0, 0, []⟩).evs, d.verts.length = 6) ∧
    ((rtLoop (fun c => if c = 'A' then some ⟨0, 0, 1, 1, 64, 0, []⟩
        else none) cleanGE 1 0 0 1 1 ['A'] 0 ⟨0, 0, []⟩).st.x,
     (rtLoop (fun c => if c = 'A' then some ⟨0, 0, 1, 1, 64, 0, []⟩
        else none) cleanGE 1 0 0 1 1 ['A'] 0 ⟨0, 0, []⟩).st.y) =
      List.foldl (stepQ 1 1) ((0 : ℚ), (0 : ℚ))
        (loadedGlyphs (fun c => if c = 'A' then
          some ⟨0, 0, 1, 1, 64, 0, []⟩ else none) ['A']) :=
  render_text_glyph_loop
    (fun c => if c = 'A' then some ⟨0, 0, 1, 1, 64, 0, []⟩ else none)
    cleanGE 1 0 0 1 1 ['A'] 0 ⟨0, 0, []⟩ cleanGE_flags (Or.inl rfl)

/-- C6: render_text returns false exactly when no font face is loaded or an
OpenGL error is detected at one of its checkpoints (after program use,
texture-unit activation, blend enable, texture binding, or — per loaded
glyph — texture-parameter setting, texture upload, or vertex-buffer
upload, a per-glyph checkpoint being detected exactly when its index is
reached by the loaded glyphs); otherwise it returns true, and in all cases
its only failure responses are logging to standard error — it never exits
the process or sets the quit flag, and it logs whenever it returns false. -/
theorem render_text_false_iff (face : Option (Char → Option Glyph))
    (ge : GLErr) (gs : GlobalGL) (text : List Char) (x y z sx sy : ℚ)
    (plane : ℤ) :
    ((render_text face ge gs text x y z sx sy plane).ok = false ↔
      (face = none ∨ ge.useProgram = true ∨ ge.activeTexture = true ∨
       ge.blend = true ∨ ge.bindTexture = true ∨
       ∃ j, j < loadedCountFace face text ∧
         (ge.texParams j = true ∨ ge.texImage j = true ∨
          ge.bufferData j = true))) ∧
    (∀ n, RtEvent.exitProg n ∉
      (render_text face ge gs text x y z sx sy plane).evs) ∧
    RtEvent.setQuit ∉ (render_text face ge gs text x y z sx sy plane).evs ∧
    ((render_text face ge gs text x y z sx sy plane).ok = false →
      ∃ m, RtEvent.log m ∈
        (render_text face ge gs text x y z sx sy plane).evs) := by
  obtain ⟨hA, hB, hC⟩ := render_text_no_exit face ge gs text x y z sx sy
    plane
  refine ⟨?_, hA, hB, hC⟩
  cases face with
  | none =>
    rw [render_text_none]
    exact iff_of_true rfl (Or.inl rfl)
  | some ft =>
    by_cases h1 : ge.useProgram = true
    · rw [render_text_up ft ge gs text x y z sx sy plane h1]
      exact iff_of_true rfl (Or.inr (Or.inl h1))
    · have h1 : ge.useProgram = false := by
        revert h1; cases ge.useProgram <;> simp
      by_cases h2 : ge.activeTexture = true
      · rw [render_text_at ft ge gs text x y z sx sy plane h1 h2]
        exact iff_of_true rfl (Or.inr (Or.inr (Or.inl h2)))
      · have h2 : ge.activeTexture = false := by
          revert h2; cases ge.activeTexture <;> simp
        by_cases h3 : ge.blend = true
        · rw [render_text_blend ft ge gs text x y z sx sy plane h1 h2 h3]
          exact iff_of_true rfl (Or.inr (Or.inr (Or.inr (Or.inl h3))))
        · have h3 : ge.blend = false := by
            revert h3; cases ge.blend <;> simp
          by_cases h4 : ge.bindTexture = true
          · rw [render_text_bind ft ge gs text x y z sx sy plane h1 h2 h3
              h4]
            exact iff_of_true rfl
              (Or.inr (Or.inr (Or.inr (Or.inr (Or.inl h4)))))
          · have h4 : ge.bindTexture = false := by
              revert h4; cases ge.bindTexture <;> simp
            rw [render_text_run ft ge gs text x y z sx sy plane h1 h2 h3 h4]
            have hiff := rtLoop_ok_iff ft ge
              (if gs.fontTex = 0 then
                (⟨gs.nextTex, gs.nextTex + 1, gs.genCalls + 1, gs.onTex⟩ :
                  GlobalGL)
               else gs).fontTex plane z sx sy text 0 ⟨x, y, []⟩
            cases hok : (rtLoop ft ge
                (if gs.fontTex = 0 then
                  (⟨gs.nextTex, gs.nextTex + 1, gs.genCalls + 1, gs.onTex⟩ :
                    GlobalGL)
                 else gs).fontTex plane z sx sy text 0 ⟨x, y, []⟩).ok
            · rw [if_neg (by simp)]
              refine iff_of_true rfl ?_
              right; right; right; right; right
              have hnot : ¬∀ j, j < (loadedGlyphs ft text).length →
                  (ge.texParams (0 + j) = false ∧
                   ge.texImage (0 + j) = false ∧
                   ge.bufferData (0 + j) = false) := by
                intro hall
                have hcontra := hiff.mpr hall
                rw [hok] at hcontra
                exact Bool.noConfusion hcontra
              push_neg at hnot
              obtain ⟨j, hj, hflag⟩ := hnot
              refine ⟨j, hj, ?_⟩
              simp only [Nat.zero_add, Bool.not_eq_false] at hflag
              cases hta : ge.texParams j with
              | true => exact Or.inl rfl
              | false =>
                cases hti : ge.texImage j with
                | true => exact Or.inr (Or.inl rfl)
                | false => exact Or.inr (Or.inr (hflag hta hti))
            · rw [if_pos rfl]
              refine iff_of_false (by simp) ?_
              intro hrhs
              rcases hrhs with habs | habs | habs | habs | habs |
                ⟨j, hj, hflag⟩
              · exact Option.noConfusion habs
              · rw [h1] at habs; exact Bool.noConfusion habs
              · rw [h2] at habs; exact Bool.noConfusion habs
              · rw [h3] at habs; exact Bool.noConfusion habs
              · rw [h4] at habs; exact Bool.noConfusion habs
              · have hall := hiff.mp hok j hj
                rw [Nat.zero_add] at hall
                rcases hflag with hf | hf | hf
                · rw [hall.1] at hf; exact Bool.noConfusion hf
                · rw [hall.2.1] at hf; exact Bool.noConfusion hf
                · rw [hall.2.2] at hf; exact Bool.noConfusion hf

/-- Witness for C6 at a concrete clean one-character call. -/
theorem render_text_false_iff_witness :
    ((render_text (some (fun c => if c = 'A' then
        some ⟨0, 0, 1, 1, 64, 0, []⟩ else none)) cleanGE ⟨0, 1, 0, 7⟩
        ['A'] 0 0 0 1 1 0).ok = false ↔
      (some (fun c => if c = 'A' then
          some (⟨0, 0, 1, 1, 64, 0, []⟩ : Glyph) else none) = none ∨
       cleanGE.useProgram = true ∨ cleanGE.activeTexture = true ∨
       cleanGE.blend = true ∨ cleanGE.bindTexture = true ∨
       ∃ j, j < loadedCountFace (some (fun c => if c = 'A' then
           some ⟨0, 0, 1, 1, 64, 0, []⟩ else none)) ['A'] ∧
         (cleanGE.texParams j = true ∨ cleanGE.texImage j = true ∨
          cleanGE.bufferData j = true))) ∧
    (∀ n, RtEvent.exitProg n ∉
      (render_text (some (fun c => if c = 'A' then
        some ⟨0, 0, 1, 1, 64, 0, []⟩ else none)) cleanGE ⟨0, 1, 0, 7⟩
        ['A'] 0 0 0 1 1 0).evs) ∧
    RtEvent.setQuit ∉
      (render_text (some (fun c => if c = 'A' then
        some ⟨0, 0, 1, 1, 64, 0, []⟩ else none)) cleanGE ⟨0, 1, 0, 7⟩
        ['A'] 0 0 0 1 1 0).evs ∧
    ((render_text (some (fun c => if c = 'A' then
        some ⟨0, 0, 1, 1, 64, 0, []⟩ else none)) cleanGE ⟨0, 1, 0, 7⟩
        ['A'] 0 0 0 1 1 0).ok = false →
      ∃ m, RtEvent.log m ∈
        (render_text (some (fun c => if c = 'A' then
          some ⟨0, 0, 1, 1, 64, 0, []⟩ else none)) cleanGE ⟨0, 1, 0, 7⟩
          ['A'] 0 0 0 1 1 0).evs) :=
  render_text_false_iff
    (some (fun c => if c = 'A' then some ⟨0, 0, 1, 1, 64, 0, []⟩ else none))
    cleanGE ⟨0, 1, 0, 7⟩ ['A'] 0 0 0 1 1 0

/-- C7: in every fly-loop iteration whose head-pose read succeeds, the
room-to-world rotation quaternion is multiplied by a rotation about the
vertical (Y) axis of angle `dt * rightStickX * (-pi/2)`, and, provided
`dt < 0.5`, the translation is incremented by the sum of an up component
`dt * trigger * (-2)` along world Y, a forward component
`dt * leftStickY * (-3)` along the head's -Z direction rotated into world
space, and a right component `dt * leftStickX * 3` along the head's +X
direction rotated into world space; if `dt >= 0.5` the translation is left
unchanged for that iteration. -/
theorem flyStep_pose_update (dt trigger leftStickX leftStickY rightStickX : ℝ)
    (headOk : Bool) (headQuat : QuatR) (pose : Pose3) (h : headOk = true) :
    (flyStep dt trigger leftStickX leftStickY rightStickX headOk headQuat
        pose).quat =
      q_mult (q_from_axis_angle 0 1 0 (dt * rightStickX * (-(Real.pi / 2))))
        pose.quat ∧
    (dt < 1 / 2 →
      ((flyStep dt trigger leftStickX leftStickY rightStickX headOk headQuat
          pose).tx,
       (flyStep dt trigger leftStickX leftStickY rightStickX headOk headQuat
          pose).ty,
       (flyStep dt trigger leftStickX leftStickY rightStickX headOk headQuat
          pose).tz) =
        vadd (vadd (vadd (pose.tx, pose.ty, pose.tz)
            (0, dt * trigger * (-2), 0))
          (vscale (dt * leftStickY * (-3))
            (q_xform
              (q_mult (q_from_axis_angle 0 1 0
                (dt * rightStickX * (-(Real.pi / 2)))) pose.quat)
              (q_xform headQuat (0, 0, -1)))))
          (vscale (dt * leftStickX * 3)
            (q_xform
              (q_mult (q_from_axis_angle 0 1 0
                (dt * rightStickX * (-(Real.pi / 2)))) pose.quat)
              (q_xform headQuat (1, 0, 0))))) ∧
    (¬dt < 1 / 2 →
      ((flyStep dt trigger leftStickX leftStickY rightStickX headOk headQuat
          pose).tx,
       (flyStep dt trigger leftStickX leftStickY rightStickX headOk headQuat
          pose).ty,
       (flyStep dt trigger leftStickX leftStickY rightStickX headOk headQuat
          pose).tz) = (pose.tx, pose.ty, pose.tz)) := by
  subst h
  by_cases hdt : dt < 1 / 2
  · refine ⟨?_, fun _ => ?_, fun habs => absurd hdt habs⟩
    · simp only [flyStep, if_pos rfl, if_true, if_pos hdt]
    · simp only [flyStep, if_pos rfl, if_true, if_pos hdt, vadd, vscale,
        Prod.mk.injEq]
      refine ⟨by ring, by ring, by ring⟩
  · refine ⟨?_, fun habs => absurd habs hdt, fun _ => ?_⟩
    · simp only [flyStep, if_pos rfl, if_true, if_neg hdt]
    · simp only [flyStep, if_pos rfl, if_true, if_neg hdt]

/-- Witness for C7 at a concrete successful head read. -/
theorem flyStep_pose_update_witness :
    (flyStep 0 0 0 0 0 true ⟨0, 0, 0, 1⟩ ⟨⟨0, 0, 0, 1⟩, 0, 0, 0⟩).quat =
      q_mult (q_from_axis_angle 0 1 0 ((0 : ℝ) * 0 * (-(Real.pi / 2))))
        (⟨0, 0, 0, 1⟩ : QuatR) ∧
    ((0 : ℝ) < 1 / 2 →
      ((flyStep 0 0 0 0 0 true ⟨0, 0, 0, 1⟩ ⟨⟨0, 0, 0, 1⟩, 0, 0, 0⟩).tx,
       (flyStep 0 0 0 0 0 true ⟨0, 0, 0, 1⟩ ⟨⟨0, 0, 0, 1⟩, 0, 0, 0⟩).ty,
       (flyStep 0 0 0 0 0 true ⟨0, 0, 0, 1⟩ ⟨⟨0, 0, 0, 1⟩, 0, 0, 0⟩).tz) =
        vadd (vadd (vadd ((0 : ℝ), (0 : ℝ), (0 : ℝ))
            (0, (0 : ℝ) * 0 * (-2), 0))
          (vscale ((0 : ℝ) * 0 * (-3))
            (q_xform
              (q_mult (q_from_axis_angle 0 1 0
                ((0 : ℝ) * 0 * (-(Real.pi / 2)))) (⟨0, 0, 0, 1⟩ : QuatR))
              (q_xform (⟨0, 0, 0, 1⟩ : QuatR) (0, 0, -1)))))
          (vscale ((0 : ℝ) * 0 * 3)
            (q_xform
              (q_mult (q_from_axis_angle 0 1 0
                ((0 : ℝ) * 0 * (-(Real.pi / 2)))) (⟨0, 0, 0, 1⟩ : QuatR))
              (q_xform (⟨0, 0, 0, 1⟩ : QuatR) (1, 0, 0))))) ∧
    (¬(0 : ℝ) < 1 / 2 →
      ((flyStep 0 0 0 0 0 true ⟨0, 0, 0, 1⟩ ⟨⟨0, 0, 0, 1⟩, 0, 0, 0⟩).tx,
       (flyStep 0 0 0 0 0 true ⟨0, 0, 0, 1⟩ ⟨⟨0, 0, 0, 1⟩, 0, 0, 0⟩).ty,
       (flyStep 0 0 0 0 0 true ⟨0, 0, 0, 1⟩ ⟨⟨0, 0, 0, 1⟩, 0, 0, 0⟩).tz) =
        ((0 : ℝ), (0 : ℝ), (0 : ℝ))) :=
  flyStep_pose_update 0 0 0 0 0 true ⟨0, 0, 0, 1⟩ ⟨⟨0, 0, 0, 1⟩, 0, 0, 0⟩
    rfl

/-- C8: render_text maintains a single font texture object for all glyphs
of all calls: starting with no font texture and positive fresh names, at
most one texture name is generated across any sequence of calls (on the
first call that needs it), every texture upload of the whole trace targets
the final `g_font_tex`, and within an error-free call the uploads are
exactly the loaded glyphs' bitmaps, in order, each re-uploaded into that
same texture object (overwriting the previous glyph's image): no per-glyph
texture is retained and no glyph atlas is built. -/
theorem font_texture_single (calls : List CallArgs) (gs : GlobalGL)
    (h0 : gs.fontTex = 0) (h1 : 1 ≤ gs.nextTex) :
    genCount (renderCalls gs calls).2 ≤ 1 ∧
    (∀ pr ∈ uploadsOf (renderCalls gs calls).2,
      pr.1 = (renderCalls gs calls).1.fontTex) ∧
    (∀ (ft : Char → Option Glyph) (gs2 : GlobalGL) (text : List Char)
        (x y z sx sy : ℚ) (plane : ℤ),
      uploadsOf (render_text (some ft) cleanGE gs2 text x y z sx sy
          plane).evs =
        (loadedGlyphs ft text).map (fun g =>
          ((render_text (some ft) cleanGE gs2 text x y z sx sy
              plane).gs.fontTex, g.bitmap))) := by
  obtain ⟨hn, h2, h3⟩ := renderCalls_facts calls gs h1
  obtain ⟨hg, hu⟩ := h2 h0
  exact ⟨hg, hu, fun ft gs2 text x y z sx sy plane =>
    render_text_clean_uploads ft gs2 text x y z sx sy plane⟩

/-- Witness for C8 at a concrete one-call sequence. -/
theorem font_texture_single_witness :
    genCount (renderCalls ⟨0, 1, 0, 7⟩
      [⟨some (fun c => if c = 'A' then some ⟨0, 0, 1, 1, 64, 0, []⟩
          else none), cleanGE, ['A'], 0, 0, 0, 1, 1, 0⟩]).2 ≤ 1 ∧
    (∀ pr ∈ uploadsOf (renderCalls ⟨0, 1, 0, 7⟩
        [⟨some (fun c => if c = 'A' then some ⟨0, 0, 1, 1, 64, 0, []⟩
            else none), cleanGE, ['A'], 0, 0, 0, 1, 1, 0⟩]).2,
      pr.1 = (renderCalls ⟨0, 1, 0, 7⟩
        [⟨some (fun c => if c = 'A' then some ⟨0, 0, 1, 1, 64, 0, []⟩
            else none), cleanGE, ['A'], 0, 0, 0, 1, 1, 0⟩]).1.fontTex) ∧
    (∀ (ft : Char → Option Glyph) (gs2 : GlobalGL) (text : List Char)
        (x y z sx sy : ℚ) (plane : ℤ),
      uploadsOf (render_text (some ft) cleanGE gs2 text x y z sx sy
          plane).evs =
        (loadedGlyphs ft text).map (fun g =>
          ((render_text (some ft) cleanGE gs2 text x y z sx sy
              plane).gs.fontTex, g.bitmap))) :=
  font_texture_single
    [⟨some (fun c => if c = 'A' then some ⟨0, 0, 1, 1, 64, 0, []⟩
        else none), cleanGE, ['A'], 0, 0, 0, 1, 1, 0⟩]
    ⟨0, 1, 0, 7⟩ rfl (by norm_num)

/-- C9: with plane 0, 1 or 2 every vertex list render_text passes to the
buffer upload has exactly six vertices, so the access to its first element
is in bounds; with any other plane value no case of the switch executes,
the vertex list is empty at every buffer upload, and the first-element
access is out of bounds. -/
theorem vertex_buffer_bounds (face : Option (Char → Option Glyph))
    (ge : GLErr) (gs : GlobalGL) (text : List Char) (x y z sx sy : ℚ)
    (plane : ℤ) :
    ∀ l ∈ bufLists (render_text face ge gs text x y z sx sy plane).evs,
      ((plane = 0 ∨ plane = 1 ∨ plane = 2) → l.length = 6 ∧ 0 < l.length) ∧
      (¬(plane = 0 ∨ plane = 1 ∨ plane = 2) → l = [] ∧ ¬0 < l.length) := by
  cases face with
  | none =>
    rw [render_text_none]
    simp [bufLists]
  | some ft =>
    by_cases h1 : ge.useProgram = true
    · rw [render_text_up ft ge gs text x y z sx sy plane h1]
      simp [bufLists]
    · have h1 : ge.useProgram = false := by
        revert h1; cases ge.useProgram <;> simp
      by_cases h2 : ge.activeTexture = true
      · rw [render_text_at ft ge gs text x y z sx sy plane h1 h2]
        simp [bufLists]
      · have h2 : ge.activeTexture = false := by
          revert h2; cases ge.activeTexture <;> simp
        by_cases h3 : ge.blend = true
        · rw [render_text_blend ft ge gs text x y z sx sy plane h1 h2 h3]
          simp [bufLists]
        · have h3 : ge.blend = false := by
            revert h3; cases ge.blend <;> simp
          by_cases h4 : ge.bindTexture = true
          · rw [render_text_bind ft ge gs text x y z sx sy plane h1 h2 h3 h4]
            by_cases h0 : gs.fontTex = 0 <;> simp [h0, bufLists]
          · have h4 : ge.bindTexture = false := by
              revert h4; cases ge.bindTexture <;> simp
            rw [render_text_run ft ge gs text x y z sx sy plane h1 h2 h3 h4]
            by_cases h0 : gs.fontTex = 0
            · simp only [if_pos h0]
              cases hok : (rtLoop ft ge gs.nextTex plane z sx sy text 0
                  ⟨x, y, []⟩).ok
              · rw [if_neg (by simp)]
                intro l hl
                rw [List.singleton_append, bufLists_cons_gen,
                  bufLists_cons_bind] at hl
                obtain ⟨hb1, hb2⟩ := rtLoop_bufs ft ge gs.nextTex plane z sx
                  sy text 0 ⟨x, y, []⟩ l hl
                exact ⟨fun h => ⟨hb1 h, by rw [hb1 h]; norm_num⟩,
                  fun h => ⟨hb2 h rfl, by rw [hb2 h rfl]; simp⟩⟩
              · rw [if_pos rfl]
                intro l hl
                rw [List.singleton_append, bufLists_cons_gen,
                  bufLists_cons_bind, bufLists_append] at hl
                rw [List.mem_append] at hl
                rcases hl with hl | hl
                · obtain ⟨hb1, hb2⟩ := rtLoop_bufs ft ge gs.nextTex plane z
                    sx sy text 0 ⟨x, y, []⟩ l hl
                  exact ⟨fun h => ⟨hb1 h, by rw [hb1 h]; norm_num⟩,
                    fun h => ⟨hb2 h rfl, by rw [hb2 h rfl]; simp⟩⟩
                · rw [bufLists_cons_bind] at hl
                  simp [bufLists] at hl
            · simp only [if_neg h0]
              cases hok : (rtLoop ft ge gs.fontTex plane z sx sy text 0
                  ⟨x, y, []⟩).ok
              · rw [if_neg (by simp)]
                intro l hl
                rw [List.nil_append, bufLists_cons_bind] at hl
                obtain ⟨hb1, hb2⟩ := rtLoop_bufs ft ge gs.fontTex plane z sx
                  sy text 0 ⟨x, y, []⟩ l hl
                exact ⟨fun h => ⟨hb1 h, by rw [hb1 h]; norm_num⟩,
                  fun h => ⟨hb2 h rfl, by rw [hb2 h rfl]; simp⟩⟩
              · rw [if_pos rfl]
                intro l hl
                rw [List.nil_append, bufLists_cons_bind,
                  bufLists_append] at hl
                rw [List.mem_append] at hl
                rcases hl with hl | hl
                · obtain ⟨hb1, hb2⟩ := rtLoop_bufs ft ge gs.fontTex plane z
                    sx sy text 0 ⟨x, y, []⟩ l hl
                  exact ⟨fun h => ⟨hb1 h, by rw [hb1 h]; norm_num⟩,
                    fun h => ⟨hb2 h rfl, by rw [hb2 h rfl]; simp⟩⟩
                · rw [bufLists_cons_bind] at hl
                  simp [bufLists] at hl

/-- Witness for C9 at a concrete one-character XY-plane call. -/
theorem vertex_buffer_bounds_witness :
    (((0 : ℤ) = 0 ∨ (0 : ℤ) = 1 ∨ (0 : ℤ) = 2) →
      (mkBuf 0 0 1 1 ⟨0, 0, []⟩ ⟨0, 0, 1, 1, 64, 0, []⟩).length = 6 ∧
      0 < (mkBuf 0 0 1 1 ⟨0, 0, []⟩ ⟨0, 0, 1, 1, 64, 0, []⟩).length) ∧
    (¬((0 : ℤ) = 0 ∨ (0 : ℤ) = 1 ∨ (0 : ℤ) = 2) →
      mkBuf 0 0 1 1 ⟨0, 0, []⟩ ⟨0, 0, 1, 1, 64, 0, []⟩ = [] ∧
      ¬0 < (mkBuf 0 0 1 1 ⟨0, 0, []⟩ ⟨0, 0, 1, 1, 64, 0, []⟩).length) :=
  vertex_buffer_bounds
    (some (fun c => if c = 'A' then some ⟨0, 0, 1, 1, 64, 0, []⟩ else none))
    cleanGE ⟨0, 1, 0, 7⟩ ['A'] 0 0 0 1 1 0
    (mkBuf 0 0 1 1 ⟨0, 0, []⟩ ⟨0, 0, 1, 1, 64, 0, []⟩)
    (by norm_num [render_text, rtLoop, glyphStep, bufLists, cleanGE,
      List.filterMap])

/-- C10 (amended): the '@'-locating scan of DrawWorld runs in unsigned
32-bit arithmetic; when '@' is present, `playerX` ends at
(-4 times the number of preceding newlines) modulo 2^32 and `playerZ` ends
at (4 times the number of characters after the last preceding newline)
modulo 2^32 — the modulus also applies to `playerZ` — and whenever at least
one newline precedes '@' and 4 times the newline count does not itself
wrap, `playerX` lands at 2^32 minus that multiple, a value near 2^32. -/
theorem player_scan_wrap (pre rest : List Char) (h : '@' ∉ pre) :
    scanPlayer (pre ++ '@' :: rest) =
      ((((-4) * (nlCount pre : ℤ)) % (M32 : ℤ)).toNat,
       (4 * sinceNewline pre) % M32) ∧
    (0 < nlCount pre → 4 * nlCount pre < M32 →
      (scanPlayer (pre ++ '@' :: rest)).1 = M32 - 4 * nlCount pre) := by
  have hs := scanAux_append pre rest 0 0 h M32_pos M32_pos
  have hmain : scanPlayer (pre ++ '@' :: rest) =
      (((M32 - 4) * nlCount pre) % M32, (4 * sinceNewline pre) % M32) := by
    simp only [scanPlayer]
    rw [hs, Nat.zero_add, Nat.zero_add, ite_self]
  refine ⟨by rw [hmain, ← wrap_px], fun h1 h2 => ?_⟩
  rw [hmain]
  exact wrap_px_small (nlCount pre) h1 h2

/-- Witness for C10 at a three-character prefix holding one newline. -/
theorem player_scan_wrap_witness :
    0 < nlCount ['a', '\x0a', 'b'] ∧
    4 * nlCount ['a', '\x0a', 'b'] < M32 ∧
    (scanPlayer (['a', '\x0a', 'b'] ++ '@' :: [])).1 =
      M32 - 4 * nlCount ['a', '\x0a', 'b'] :=
  ⟨by decide, by decide,
    (player_scan_wrap ['a', '\x0a', 'b'] [] (by decide)).2 (by decide)
      (by decide)⟩

/-- On a newline-free prefix of 2^30 characters, the scan's final `playerZ`
is 0, not 4 times the character count: the 32-bit wrap applies to `playerZ`
as well. -/
theorem player_scan_cex :
    (scanPlayer (List.replicate (2 ^ 30) 'a' ++ '@' :: [])).2 ≠
      4 * sinceNewline (List.replicate (2 ^ 30) 'a') := by
  have hna : '@' ∉ List.replicate (2 ^ 30) 'a' := by
    intro hm
    exact absurd (List.eq_of_mem_replicate hm) (by decide)
  have hnn : '\x0a' ∉ List.replicate (2 ^ 30) 'a' := by
    intro hm
    exact absurd (List.eq_of_mem_replicate hm) (by decide)
  have hs := scanAux_append (List.replicate (2 ^ 30) 'a') [] 0 0 hna
    M32_pos M32_pos
  simp only [scanPlayer]
  rw [hs, if_neg hnn, sinceNewline_no_nl _ hnn, List.length_replicate]
  norm_num [M32]
